import Mathlib

/-!
Verification of the analytics engine of the Teacher-Assessment-Tool repository
(`src/utils/analytics.ts`): a shallow embedding of the four analytics functions
(`calculateTrends`, `calculatePeerComparison`, `generateInterventionAlerts`,
`generateRecommendations`) and their helpers, followed by theorems settling the
specification claims about them.

Modelling conventions:
* JavaScript numbers are modelled as `ℚ` (all scores and thresholds in this code
  are small decimal fractions; the boundary comparisons under test are exact).
* A JavaScript `Map` or plain object used as a dictionary is modelled as an
  insertion-ordered association list `List (String × α)`; `findVal` is `get`.
* `Array.prototype.sort` (stable since ES2019) is modelled by the stable
  insertion sort `sortBy`; for a comparator inducing a total preorder the stable
  sorted result is unique, so the choice of stable algorithm is immaterial.
* An ISO-8601 `timestamp` string is modelled by the calendar date `JSDate` that
  `new Date(timestamp)` yields in local time: the analytics code reads a
  timestamp only through `getFullYear`/`getMonth`/`getDate` of that `Date`.
* `Rat` literals such as `5/2` stand for the JavaScript literals `2.5` etc.
-/

/-- First value bound to key `k` in an association list; models `Map.get(k)` /
object property read. All maps built below have unique keys, in insertion
order. -/
def findVal (m : List (String × α)) (k : String) : Option α :=
  match m with
  | [] => none
  | p :: rest => if p.1 = k then some p.2 else findVal rest k

/-- Models `if (!m.has(k)) m.set(k, v0)`: appends a fresh key at the end,
preserving JavaScript `Map` insertion order. -/
def ensureKey (m : List (String × α)) (k : String) (v0 : α) : List (String × α) :=
  if (findVal m k).isSome then m else m ++ [(k, v0)]

/-- Models an in-place update of the value stored at key `k` (JavaScript mutates
the object held in the map; here the map is rebuilt with the updated value). -/
def updateVal (m : List (String × α)) (k : String) (f : α → α) : List (String × α) :=
  m.map (fun p => if p.1 = k then (p.1, f p.2) else p)

/-- One step of the accumulation pattern `analytics.ts` uses three times
(weekly/monthly buckets, per-student scores, per-student log groups): for an
input element `b`, make sure the key `key b` is present (initialising it from
`b`), then fold every item of `b` into the value stored at that key. -/
def groupStep (key : β → String) (init : β → α) (upd : α → γ → α) (items : β → List γ)
    (m : List (String × α)) (b : β) : List (String × α) :=
  (items b).foldl (fun m0 c => updateVal m0 (key b) (fun a => upd a c))
    (ensureKey m (key b) (init b))

/-- Accumulates a whole input list into an insertion-ordered map, starting
empty; models the `logs.forEach(...)` accumulation loops of `analytics.ts`. -/
def groupFold (key : β → String) (init : β → α) (upd : α → γ → α) (items : β → List γ)
    (bs : List β) : List (String × α) :=
  bs.foldl (groupStep key init upd items) []

/-- Keys of a list in first-occurrence order: the key order of a JavaScript
`Map` populated by the loops modelled with `groupFold`. -/
def occKeys (ks : List String) : List String :=
  ks.foldl (fun acc k => if k ∈ acc then acc else acc ++ [k]) []

/-- Closed form of the value `groupFold` associates with key `k`: all items of
the inputs mapping to `k`, folded in encounter order, starting from the
initialiser taken from the first such input. -/
def groupVal [Inhabited β] (key : β → String) (init : β → α) (upd : α → γ → α)
    (items : β → List γ) (bs : List β) (k : String) : α :=
  ((bs.filter (fun b => key b = k)).flatMap items).foldl upd
    (init ((bs.filter (fun b => key b = k)).headD default))

/-- Closed form of the whole map built by `groupFold`. -/
def groupSpec [Inhabited β] (key : β → String) (init : β → α) (upd : α → γ → α)
    (items : β → List γ) (bs : List β) : List (String × α) :=
  (occKeys (bs.map key)).map (fun k => (k, groupVal key init upd items bs k))

/-- Insertion into a sorted list, keeping `a` before the first element it
compares `le` to. -/
def insertLe (le : α → α → Bool) (a : α) : List α → List α
  | [] => [a]
  | b :: l => if le a b then a :: b :: l else b :: insertLe le a l

/-- Stable insertion sort; models `Array.prototype.sort` with a comparator
`cmp` via `le a b := cmp(a,b) ≤ 0` (elements the comparator ties keep their
relative order, as the ES2019 stable-sort requirement demands). -/
def sortBy (le : α → α → Bool) : List α → List α
  | [] => []
  | a :: l => insertLe le a (sortBy le l)

/-- Truncation of a rational toward zero: `ToIntegerOrInfinity`, which is what
`new Date(n).getTime()` applies to a finite number `n` (the scores sorted on
line 203 of `analytics.ts` are far below the `8.64e15` time-clip bound). -/
def ratTrunc (q : ℚ) : ℤ := if 0 ≤ q then ⌊q⌋ else -⌊-q⌋

/-- Models JavaScript `Math.round`: round half toward positive infinity. -/
def jsRound (q : ℚ) : ℤ := ⌊q + 1/2⌋

/-- Models the JavaScript number division used for averages (`sum / length`).
The embedding only evaluates it on non-empty lists, exactly where the source
does (an empty list would give `NaN` in JavaScript). -/
def avgQ (l : List ℚ) : ℚ := l.sum / (l.length : ℚ)

/-- Calendar date as read from a JavaScript `Date` in local time: `year` is
`getFullYear()`, `month` is the 0-based `getMonth()`, `day` is the 1-based
`getDate()`. -/
structure JSDate where
  year : ℤ
  month : ℕ
  day : ℕ
  deriving DecidableEq, Repr

/-- Days since 1970-01-01 of the civil date (`y`, 1-based month `m`, day `d`);
standard civil-from-days algorithm. Lean's `Int` `/` and `%` are Euclidean,
which coincides with floor division/modulus for the positive divisors used
here. -/
def daysFromCivil (y m d : ℤ) : ℤ :=
  let yAdj : ℤ := if m ≤ 2 then y - 1 else y
  let era : ℤ := yAdj / 400
  let yoe : ℤ := yAdj - era * 400
  let mp : ℤ := (m + 9) % 12
  let doy : ℤ := (153 * mp + 2) / 5 + d - 1
  let doe : ℤ := yoe * 365 + yoe / 4 - yoe / 100 + doy
  era * 146097 + doe - 719468

/-- Models ECMA-262 `MakeFullYear`, applied by the `Date(year, month, ...)`
constructor: an integer year between 0 and 99 denotes 1900 + year
(`new Date(50, 0, 1)` is 1950-01-01), any other year denotes itself. -/
def jsMakeFullYear (y : ℤ) : ℤ := if 0 ≤ y ∧ y ≤ 99 then 1900 + y else y

/-- Models `new Date(year, month, 1).getDay()`: weekday (0 = Sunday) of the
first day of the given 0-based `month` of the `MakeFullYear`-remapped `year`;
1970-01-01 was a Thursday (4). -/
def jsMonthStartDay (year : ℤ) (month : ℕ) : ℕ :=
  ((daysFromCivil (jsMakeFullYear year) ((month : ℤ) + 1) 1 + 4) % 7).toNat

/-- Specification-side definition following claim C8's words: the weekday index
of the first day of the instant's own month, without the `MakeFullYear` remap
the program's `new Date(year, month, 1)` constructor applies. For years outside
0..99 it agrees with `jsMonthStartDay`. -/
def instantMonthStartDay (year : ℤ) (month : ℕ) : ℕ :=
  ((daysFromCivil year ((month : ℤ) + 1) 1 + 4) % 7).toNat

/-- Models `String.prototype.padStart(2, '0')`. -/
def padStart2 (s : String) : String :=
  String.mk (List.replicate (2 - s.length) '0' ++ s.data)

/-- Week number used by `getWeekKey` (analytics.ts line 285):
`Math.ceil((date.getDate() + new Date(year, month, 1).getDay()) / 7)`.
For a natural number `n`, `Math.ceil(n / 7) = (n + 6) / 7` in `ℕ`. -/
def weekNumberOf (date : JSDate) : ℕ :=
  (date.day + jsMonthStartDay date.year date.month + 6) / 7

/-- Embeds `getWeekKey` (analytics.ts lines 283-287). -/
def getWeekKey (date : JSDate) : String :=
  toString date.year ++ "-W" ++ padStart2 (toString (weekNumberOf date))

/-- Embeds `getMonthKey` (analytics.ts lines 289-293). -/
def getMonthKey (date : JSDate) : String :=
  toString date.year ++ "-" ++ padStart2 (toString (date.month + 1))

/-- Leap year of the proleptic Gregorian calendar. -/
def isLeapYear (y : ℤ) : Bool := (y % 4 == 0 && y % 100 != 0) || y % 400 == 0

/-- Number of days of the 0-based `month` of year `y`. -/
def daysInMonth (y : ℤ) (month : ℕ) : ℕ :=
  [31, if isLeapYear y then 29 else 28, 31, 30, 31, 30, 31, 31, 30, 31, 30, 31].getD month 0

/-- Validity of a calendar date: any instant a `Date` can hold projects to such
a date. -/
def JSDate.Valid (d : JSDate) : Prop :=
  d.month < 12 ∧ 1 ≤ d.day ∧ d.day ≤ daysInMonth d.year d.month

instance (d : JSDate) : Decidable d.Valid :=
  inferInstanceAs (Decidable (d.month < 12 ∧ 1 ≤ d.day ∧ d.day ≤ daysInMonth d.year d.month))

/-- Embeds the `CategoryScore` entries of the record model (`types/index.ts`). -/
structure CategoryScore where
  category : String
  score : ℚ
  isAutoSuggested : Bool
  deriving DecidableEq, Repr

instance : Inhabited CategoryScore := ⟨⟨"", 0, false⟩⟩

/-- Embeds the `ObservationLog` record model (`types/index.ts`). `categories`
is optional because the analytics code guards every access with
`if (log.categories)` / `log.categories?.`, i.e. runtime records may lack the
field; `nlpSuggestions` is optional, never read by the analytics, and omitted.
`timestamp` is the calendar date of the ISO instant (see the header note). -/
structure ObservationLog where
  id : String
  studentId : String
  studentName : String
  timestamp : JSDate
  observation : String
  tags : List String
  categories : Option (List CategoryScore)
  deriving DecidableEq, Repr

instance : Inhabited ObservationLog := ⟨⟨"", "", "", ⟨1970, 0, 1⟩, "", [], none⟩⟩

/-- Category-score entries of a record as the analytics code sees them:
`log.categories` when present, otherwise nothing (the `undefined` guards). -/
def jsCats (log : ObservationLog) : List CategoryScore := log.categories.getD []

/-- The fixed category vocabulary, as hardcoded at analytics.ts lines 147
and 192. -/
def CATEGORIES : List String :=
  ["Cognitive Skills", "Social Skills", "Emotional Readiness", "Communication", "Creativity"]

/-! ## Trend aggregation (`calculateTrends`, analytics.ts lines 40-105) -/

/-- Embeds the `TrendData` interface. -/
structure TrendData where
  period : String
  scores : List (String × ℚ)
  totalObservations : ℕ
  deriving DecidableEq, Repr

/-- Models the inner per-bucket accumulation of analytics.ts lines 62-77:
initialise `inner[category]` to `[]` when absent, then push the score. -/
def addScore (inner : List (String × List ℚ)) (cs : CategoryScore) : List (String × List ℚ) :=
  if (findVal inner cs.category).isSome then
    updateVal inner cs.category (fun arr => arr ++ [cs.score])
  else inner ++ [(cs.category, [cs.score])]

/-- Models the bucket-map accumulation of analytics.ts lines 48-79 for one
granularity: ensure the bucket key exists (lines 54-59, run for every record,
with or without category scores), then fold each category score of the record
into the bucket (lines 62-77). -/
def buildBuckets (keyF : JSDate → String) (logs : List ObservationLog) :
    List (String × List (String × List ℚ)) :=
  groupFold (fun log => keyF log.timestamp) (fun _ => []) addScore jsCats logs

/-- Models lines 84-89 / 95-100: per-category mean of the collected scores
(`scoreArray.length > 0 ? sum / length : 0`). -/
def scoresAvgMap (inner : List (String × List ℚ)) : List (String × ℚ) :=
  inner.map (fun p => (p.1, if 0 < p.2.length then p.2.sum / (p.2.length : ℚ) else 0))

/-- Models line 90 / 101: `totalObservations` as the sum of the per-category
score counts of the bucket. -/
def totalObsOf (inner : List (String × List ℚ)) : ℕ :=
  (inner.map (fun p => p.2.length)).sum

/-- Converts one accumulated bucket to a `TrendData` (lines 82-91, 93-102). -/
def trendsOfBuckets (keyF : JSDate → String) (logs : List ObservationLog) : List TrendData :=
  (buildBuckets keyF logs).map (fun p =>
    { period := p.1, scores := scoresAvgMap p.2, totalObservations := totalObsOf p.2 })

/-- Digit value of a character, if it is a decimal digit. -/
def digitVal (c : Char) : Option ℕ :=
  if '0' ≤ c ∧ c ≤ '9' then some (c.toNat - 48) else none

/-- Decimal value of a non-empty all-digit character list. -/
def parseDigits (cs : List Char) : Option ℕ :=
  if cs = [] then none else
  cs.foldl (fun acc c =>
    match acc, digitVal c with
    | some n, some d => some (n * 10 + d)
    | _, _ => none) (some 0)

/-- Splits a character list at `-` separators. -/
def splitDashAux : List Char → List Char → List (List Char)
  | [], cur => [cur.reverse]
  | c :: rest, cur =>
    if c = '-' then cur.reverse :: splitDashAux rest [] else splitDashAux rest (c :: cur)

/-- Chronological ordinal of a parsed `"YYYY-MM"` month key; `none` for the
`"YYYY-WNN"` week keys, which `new Date(...)` parses as an Invalid Date
(`NaN`). On the month keys this program produces, the ordinal `year * 12 +
month` is order-isomorphic to the parsed epoch time, which is all the final
sort's comparator can observe. -/
def monthKeyOrd (s : String) : Option ℤ :=
  if s.data.any (fun c => c = 'W') then none
  else
    match splitDashAux s.data [] with
    | [ys, ms] =>
      match parseDigits ys, parseDigits ms with
      | some y, some m => some ((y : ℤ) * 12 + (m : ℤ))
      | _, _ => none
    | _ => none

/-- Models the final comparator of line 104,
`new Date(a.period).getTime() - new Date(b.period).getTime()`: month keys
compare chronologically; a comparison involving a week key yields `NaN`, which
`Array.prototype.sort` treats as `0` (elements tie and keep their order). Only
the permutation property of the resulting sort is used below. -/
def trendLe (a b : TrendData) : Bool :=
  match monthKeyOrd a.period, monthKeyOrd b.period with
  | some x, some y => x ≤ y
  | _, _ => true

/-- Models the `studentId` filter of lines 41-43: JavaScript tests the
argument for truthiness, so an absent or empty student id means no filtering. -/
def filteredLogs (logs : List ObservationLog) (studentId? : Option String) :
    List ObservationLog :=
  match studentId? with
  | some sid => if sid = "" then logs else logs.filter (fun log => log.studentId = sid)
  | none => logs

/-- Embeds `calculateTrends` (analytics.ts lines 40-105): weekly then monthly
trend entries, concatenated and sorted by the period comparator. -/
def calculateTrends (logs : List ObservationLog) (studentId? : Option String) :
    List TrendData :=
  sortBy trendLe (trendsOfBuckets getWeekKey (filteredLogs logs studentId?)
    ++ trendsOfBuckets getMonthKey (filteredLogs logs studentId?))

/-- Specification-side view of a bucket's contents: every category-score entry
of a (filtered) record whose timestamp maps to the bucket key `p` under the
granularity `keyF`, in record order. -/
def bucketEntries (logs : List ObservationLog) (keyF : JSDate → String) (p : String) :
    List CategoryScore :=
  (logs.filter (fun log => keyF log.timestamp = p)).flatMap jsCats

/-- Specification-side view: the scores contributed to bucket `p` for category
`c`. -/
def bucketCatScores (logs : List ObservationLog) (keyF : JSDate → String) (p c : String) :
    List ℚ :=
  ((bucketEntries logs keyF p).filter (fun cs => cs.category = c)).map (fun cs => cs.score)

/-! ## Peer comparison (`calculatePeerComparison`, analytics.ts lines 108-175) -/

/-- Embeds the `PeerComparison` interface (percentiles are the integers
`Math.round` produces). -/
structure PeerComparison where
  studentId : String
  studentName : String
  categoryAverages : List (String × ℚ)
  percentile : List (String × ℤ)
  overallPercentile : ℤ
  deriving DecidableEq, Repr

/-- Models the per-student score accumulation of lines 112-126: the map value
is the pair (name of the student's first record, per-category score lists). -/
def buildStudentScores (logs : List ObservationLog) :
    List (String × (String × List (String × List ℚ))) :=
  groupFold (fun log => log.studentId) (fun log => (log.studentName, []))
    (fun p cs => (p.1, addScore p.2 cs)) jsCats logs

/-- Models lines 129-144: one `PeerComparison` per student with the category
averages filled in and percentiles still empty. -/
def peerBase (logs : List ObservationLog) : List PeerComparison :=
  (buildStudentScores logs).map (fun p =>
    { studentId := p.1, studentName := p.2.1,
      categoryAverages := scoresAvgMap p.2.2,
      percentile := [], overallPercentile := 0 })

/-- Models lines 150-153: the ascending-sorted cohort list for a category —
every student's average for it, keeping only present (`undefined > 0` is
false) and positive values, sorted with the comparator `(a, b) => a - b`. -/
def cohortScores (logs : List ObservationLog) (c : String) : List ℚ :=
  sortBy (fun a b => a ≤ b)
    (((peerBase logs).filterMap (fun s => findVal s.categoryAverages c)).filter
      (fun v => 0 < v))

/-- Models `scores.findIndex(s => s >= score)` of line 158: index of the first
cohort score at least `v`, `-1` if there is none. -/
def jsFindIdxGe (l : List ℚ) (v : ℚ) : ℤ :=
  match l.findIdx? (fun x => v ≤ x) with
  | some i => (i : ℤ)
  | none => -1

/-- Models lines 155-163 for one student and category: the percentile
`Math.round(((rank + 1) / scores.length) * 100)` when the student's average is
present and positive, else `0`. -/
def percentileFor (logs : List ObservationLog) (c : String)
    (avgMap : List (String × ℚ)) : ℤ :=
  match findVal avgMap c with
  | some v =>
    if 0 < v then
      jsRound (((jsFindIdxGe (cohortScores logs c) v + 1 : ℤ) : ℚ)
        / ((cohortScores logs c).length : ℚ) * 100)
    else 0
  | none => 0

/-- Models the percentile-filling loops of lines 147-164. The source mutates
`student.percentile[category]` in place; since those loops never change any
`categoryAverages` (which is all the cohort lists read), the mutation is
equivalent to this per-student functional update, with the percentile keys in
the canonical category order they are inserted in. -/
def withPercentiles (logs : List ObservationLog) : List PeerComparison :=
  (peerBase logs).map (fun s =>
    { s with percentile :=
        CATEGORIES.map (fun c => (c, percentileFor logs c s.categoryAverages)) })

/-- Models lines 167-172: mean of the positive category percentiles, rounded;
`0` when there is none. -/
def overallOf (pct : List (String × ℤ)) : ℤ :=
  let valid : List ℤ := (pct.map (fun p => p.2)).filter (fun v => 0 < v)
  if 0 < valid.length then jsRound ((valid.sum : ℚ) / (valid.length : ℚ)) else 0

/-- Embeds `calculatePeerComparison` (analytics.ts lines 108-175): fill in
percentiles and overall percentile, then sort descending by the latter. -/
def calculatePeerComparison (logs : List ObservationLog) : List PeerComparison :=
  sortBy (fun a b => b.overallPercentile ≤ a.overallPercentile)
    ((withPercentiles logs).map (fun s =>
      { s with overallPercentile := overallOf s.percentile }))

/-! ## Intervention alerts (`generateInterventionAlerts`, analytics.ts
lines 178-254) -/

inductive AlertType where
  | decline
  | threshold
  | improvement
  deriving DecidableEq, Repr

inductive Severity where
  | low
  | medium
  | high
  deriving DecidableEq, Repr

/-- Embeds the `InterventionAlert` interface. The presentational `message`
string (built with `toFixed(1)` formatting) is carried by no claim and omitted
from the embedding. -/
structure InterventionAlert where
  studentId : String
  studentName : String
  alertType : AlertType
  category : String
  severity : Severity
  score : ℚ
  threshold : ℚ
  trend : ℚ
  deriving DecidableEq, Repr

/-- Models `log.categories?.some(cat => cat.category === category)`
(line 196). -/
def hasCategoryEntry (log : ObservationLog) (c : String) : Bool :=
  (jsCats log).any (fun cs => cs.category = c)

/-- Records of one student, in input order (closed form of the grouping of
lines 183-188, proved equal to it below). -/
def studentLogsOf (logs : List ObservationLog) (sid : String) : List ObservationLog :=
  logs.filter (fun log => log.studentId = sid)

/-- Models line 195-197: the student's records that carry at least one entry
for the category. -/
def categoryLogsOf (slogs : List ObservationLog) (c : String) : List ObservationLog :=
  slogs.filter (fun log => hasCategoryEntry log c)

/-- Models lines 200-202 before the sort: all the pair's scores in record
order. -/
def rawScoresOf (slogs : List ObservationLog) (c : String) : List ℚ :=
  ((categoryLogsOf slogs c).flatMap
    (fun log => (jsCats log).filter (fun cs => cs.category = c))).map (fun cs => cs.score)

/-- Models line 203, `.sort((a, b) => new Date(a).getTime() - new
Date(b).getTime())` applied to the score numbers themselves: a stable sort of
the scores by their truncation to an integer (the score read as an epoch
millisecond count). This is NOT a chronological ordering — see the claims
about it below. -/
def sortScoresJs (scores : List ℚ) : List ℚ :=
  sortBy (fun a b => ratTrunc a ≤ ratTrunc b) scores

/-- The score sequence the alert generator windows over (line 200-203). -/
def windowScoresOf (slogs : List ObservationLog) (c : String) : List ℚ :=
  sortScoresJs (rawScoresOf slogs c)

/-- Models `scores.slice(-3)` (line 207). -/
def recentScoresOf (slogs : List ObservationLog) (c : String) : List ℚ :=
  (windowScoresOf slogs c).drop ((windowScoresOf slogs c).length - 3)

/-- Models `scores.slice(-6, -3)` (line 208). -/
def olderScoresOf (slogs : List ObservationLog) (c : String) : List ℚ :=
  ((windowScoresOf slogs c).take ((windowScoresOf slogs c).length - 3)).drop
    ((windowScoresOf slogs c).length - 6)

/-- Last element of a score list (`scores[scores.length - 1]`, line 232; only
evaluated on non-empty lists by the source). -/
def lastScore : List ℚ → ℚ
  | [] => 0
  | [a] => a
  | _ :: b :: l => lastScore (b :: l)

/-- Decline value of line 213 for a pair. -/
def declineOf (slogs : List ObservationLog) (c : String) : ℚ :=
  avgQ (olderScoresOf slogs c) - avgQ (recentScoresOf slogs c)

/-- Models the decline check, lines 205-229. -/
def declineAlertsFor (sid name c : String) (slogs : List ObservationLog) :
    List InterventionAlert :=
  if 3 ≤ (windowScoresOf slogs c).length then
    if 0 < (olderScoresOf slogs c).length then
      if 1/2 < declineOf slogs c then
        [{ studentId := sid, studentName := name, alertType := AlertType.decline,
           category := c,
           severity := if 1 < declineOf slogs c then Severity.high
             else if 7/10 < declineOf slogs c then Severity.medium else Severity.low,
           score := avgQ (recentScoresOf slogs c),
           threshold := avgQ (olderScoresOf slogs c),
           trend := declineOf slogs c }]
      else []
    else []
  else []

/-- Models the low-score threshold check, lines 231-245. -/
def thresholdAlertsFor (sid name c : String) (slogs : List ObservationLog) :
    List InterventionAlert :=
  if lastScore (windowScoresOf slogs c) < 5/2 then
    [{ studentId := sid, studentName := name, alertType := AlertType.threshold,
       category := c,
       severity := if lastScore (windowScoresOf slogs c) < 3/2 then Severity.high
         else if lastScore (windowScoresOf slogs c) < 2 then Severity.medium
         else Severity.low,
       score := lastScore (windowScoresOf slogs c), threshold := 5/2, trend := 0 }]
  else []

/-- Alerts one `(student, category)` pair contributes (lines 194-247): nothing
unless at least 3 of the student's records carry the category, else the
decline alert (if any) followed by the threshold alert (if any). -/
def pairAlertsFor (sid name : String) (slogs : List ObservationLog) (c : String) :
    List InterventionAlert :=
  if 3 ≤ (categoryLogsOf slogs c).length then
    declineAlertsFor sid name c slogs ++ thresholdAlertsFor sid name c slogs
  else []

/-- Models the per-student grouping of lines 180-188. -/
def groupLogsByStudent (logs : List ObservationLog) :
    List (String × List ObservationLog) :=
  groupFold (fun log => log.studentId) (fun _ => []) (fun arr log => arr ++ [log])
    (fun log => [log]) logs

/-- Models `studentLogs[0].studentName` (line 191; every group the code builds
is non-empty). -/
def headStudentName : List ObservationLog → String
  | [] => ""
  | log :: _ => log.studentName

/-- Numeric severity rank of the final sort's comparator (lines 250-253). -/
def severityRank : Severity → ℕ
  | Severity.high => 3
  | Severity.medium => 2
  | Severity.low => 1

/-- Embeds `generateInterventionAlerts` (analytics.ts lines 178-254): group the
records by student, scan the five canonical categories per student, emit the
pair alerts in encounter order, and stable-sort descending by severity. -/
def generateInterventionAlerts (logs : List ObservationLog) : List InterventionAlert :=
  sortBy (fun a b => severityRank b.severity ≤ severityRank a.severity)
    ((groupLogsByStudent logs).flatMap (fun p =>
      CATEGORIES.flatMap (fun c => pairAlertsFor p.1 (headStudentName p.2) p.2 c)))

/-- Specification-side definition, following §4.4 step 1 of the specification:
scores of the pair's records ordered chronologically by the owning record's
timestamp (stable, so records sharing a timestamp keep input order), each
record contributing its matching entries in their stored order. -/
def chronScoresOf (logs : List ObservationLog) (sid c : String) : List ℚ :=
  ((sortBy (fun a b =>
      a.timestamp.year < b.timestamp.year ∨
        (a.timestamp.year = b.timestamp.year ∧
          (a.timestamp.month < b.timestamp.month ∨
            (a.timestamp.month = b.timestamp.month ∧ a.timestamp.day ≤ b.timestamp.day))))
      (categoryLogsOf (studentLogsOf logs sid) c)).flatMap
    (fun log => (jsCats log).filter (fun cs => cs.category = c))).map (fun cs => cs.score)

/-! ## Recommendations (`generateRecommendations`, analytics.ts lines 257-280,
295-378) -/

/-- Embeds one score-band rule of the static catalog. -/
structure RecRule where
  minScore : ℚ
  maxScore : ℚ
  recommendation : String
  activity : String
  resources : List String
  deriving DecidableEq, Repr

/-- Embeds the `Recommendation` interface. -/
structure Recommendation where
  studentId : String
  studentName : String
  category : String
  recommendation : String
  activity : String
  resources : List String
  priority : Severity
  deriving DecidableEq, Repr

/-- Embeds the static catalog `getRecommendationMap()` (lines 295-378). -/
def recommendationMap : List (String × List RecRule) :=
  [("Cognitive Skills",
    [{ minScore := 1, maxScore := 2,
       recommendation := "Focus on foundational problem-solving skills",
       activity := "One-on-one problem-solving sessions",
       resources := ["Math manipulatives", "Logic puzzles", "Step-by-step guides"] },
     { minScore := 2, maxScore := 3,
       recommendation := "Build critical thinking through guided activities",
       activity := "Small group problem-solving activities",
       resources := ["Brain teasers", "Strategy games", "Discussion prompts"] }]),
   ("Social Skills",
    [{ minScore := 1, maxScore := 2,
       recommendation := "Develop basic social interaction skills",
       activity := "Structured group activities with clear roles",
       resources := ["Social stories", "Role-playing scenarios", "Team building games"] },
     { minScore := 2, maxScore := 3,
       recommendation := "Enhance collaboration and communication",
       activity := "Partner and small group projects",
       resources := ["Collaborative games", "Communication exercises", "Peer mentoring"] }]),
   ("Emotional Readiness",
    [{ minScore := 1, maxScore := 2,
       recommendation := "Build emotional awareness and regulation",
       activity := "Mindfulness and emotional literacy activities",
       resources := ["Emotion cards", "Breathing exercises", "Calm-down strategies"] },
     { minScore := 2, maxScore := 3,
       recommendation := "Strengthen resilience and self-confidence",
       activity := "Goal-setting and achievement activities",
       resources := ["Confidence-building exercises", "Growth mindset activities",
         "Success journals"] }]),
   ("Communication",
    [{ minScore := 1, maxScore := 2,
       recommendation := "Develop basic communication skills",
       activity := "Structured speaking and listening activities",
       resources := ["Picture cards", "Sentence starters", "Listening games"] },
     { minScore := 2, maxScore := 3,
       recommendation := "Enhance verbal and non-verbal communication",
       activity := "Presentation and discussion activities",
       resources := ["Public speaking exercises", "Body language activities",
         "Active listening practice"] }]),
   ("Creativity",
    [{ minScore := 1, maxScore := 2,
       recommendation := "Encourage creative expression and imagination",
       activity := "Open-ended art and creative projects",
       resources := ["Art supplies", "Creative prompts", "Imagination games"] },
     { minScore := 2, maxScore := 3,
       recommendation := "Foster innovative thinking and originality",
       activity := "Creative problem-solving challenges",
       resources := ["Innovation challenges", "Creative thinking exercises",
         "Design thinking activities"] }])]

/-- The recommendation one rule yields for one alert (lines 266-274). -/
def recOfRule (alert : InterventionAlert) (rule : RecRule) : Recommendation :=
  { studentId := alert.studentId, studentName := alert.studentName,
    category := alert.category, recommendation := rule.recommendation,
    activity := rule.activity, resources := rule.resources,
    priority := alert.severity }

/-- Recommendations one alert contributes (lines 261-277): one per catalog rule
of its category whose inclusive band contains the alert's score, in catalog
order (`recommendationMap[alert.category] || []` for an unknown category). -/
def recsForAlert (alert : InterventionAlert) : List Recommendation :=
  ((findVal recommendationMap alert.category).getD []).foldl
    (fun acc rule =>
      if alert.score ≤ rule.maxScore ∧ rule.minScore ≤ alert.score then
        acc ++ [recOfRule alert rule]
      else acc) []

/-- Embeds `generateRecommendations` (analytics.ts lines 257-280). The `logs`
argument is accepted and ignored, exactly as in the source. -/
def generateRecommendations (_logs : List ObservationLog)
    (alerts : List InterventionAlert) : List Recommendation :=
  alerts.foldl (fun acc alert => acc ++ recsForAlert alert) []

/-! ## Concrete fixtures used by the claim theorems and witnesses -/

/-- Category score literal shorthand for fixtures. -/
def mkCS (c : String) (s : ℚ) : CategoryScore := ⟨c, s, false⟩

/-- Record literal shorthand for fixtures: a January 2024 record of student
`sid` on day `d`. -/
def mkLog (sid name : String) (d : ℕ) (cats : List CategoryScore) : ObservationLog :=
  ⟨"", sid, name, ⟨2024, 0, d⟩, "", [], some cats⟩

/-- Six records of one student for `Communication`, chronologically (and in
input order) scoring 5, 5, 5, 2, 2, 2. -/
def c1Logs : List ObservationLog :=
  [mkLog "s1" "Ann" 1 [mkCS "Communication" 5],
   mkLog "s1" "Ann" 2 [mkCS "Communication" 5],
   mkLog "s1" "Ann" 3 [mkCS "Communication" 5],
   mkLog "s1" "Ann" 4 [mkCS "Communication" 2],
   mkLog "s1" "Ann" 5 [mkCS "Communication" 2],
   mkLog "s1" "Ann" 6 [mkCS "Communication" 2]]

/-- One single record carrying six `Cognitive Skills` entries: 3.9, 3.9, 3.9,
3.3, 3.3, 3.3. -/
def c2xLogs : List ObservationLog :=
  [mkLog "s2" "Ben" 1
    [mkCS "Cognitive Skills" (39/10), mkCS "Cognitive Skills" (39/10),
     mkCS "Cognitive Skills" (39/10), mkCS "Cognitive Skills" (33/10),
     mkCS "Cognitive Skills" (33/10), mkCS "Cognitive Skills" (33/10)]]

/-- Six `Creativity` records scoring 3.9, 3.9, 3.9, 3.39, 3.39, 3.39: the
older/recent means differ by exactly 0.51. -/
def c2wLogs : List ObservationLog :=
  [mkLog "s2w" "Cara" 1 [mkCS "Creativity" (39/10)],
   mkLog "s2w" "Cara" 2 [mkCS "Creativity" (39/10)],
   mkLog "s2w" "Cara" 3 [mkCS "Creativity" (39/10)],
   mkLog "s2w" "Cara" 4 [mkCS "Creativity" (339/100)],
   mkLog "s2w" "Cara" 5 [mkCS "Creativity" (339/100)],
   mkLog "s2w" "Cara" 6 [mkCS "Creativity" (339/100)]]

/-- Six `Creativity` records scoring 3.9, 3.9, 3.9, 3.4, 3.4, 3.4: the
older/recent means differ by exactly 0.5. -/
def c2wLogs0 : List ObservationLog :=
  [mkLog "s2z" "Cleo" 1 [mkCS "Creativity" (39/10)],
   mkLog "s2z" "Cleo" 2 [mkCS "Creativity" (39/10)],
   mkLog "s2z" "Cleo" 3 [mkCS "Creativity" (39/10)],
   mkLog "s2z" "Cleo" 4 [mkCS "Creativity" (34/10)],
   mkLog "s2z" "Cleo" 5 [mkCS "Creativity" (34/10)],
   mkLog "s2z" "Cleo" 6 [mkCS "Creativity" (34/10)]]

/-- Three `Social Skills` records, chronologically (and in input order)
scoring 4, 4, 2: the chronologically last score is 2, below 2.5. -/
def c3Logs : List ObservationLog :=
  [mkLog "s3" "Dan" 1 [mkCS "Social Skills" 4],
   mkLog "s3" "Dan" 2 [mkCS "Social Skills" 4],
   mkLog "s3" "Dan" 3 [mkCS "Social Skills" 2]]

/-- Two students with the identical `Creativity` average 4. -/
def p4Logs : List ObservationLog :=
  [mkLog "pa" "Eve" 1 [mkCS "Creativity" 4],
   mkLog "pb" "Fay" 2 [mkCS "Creativity" 4]]

/-- One record carrying two `Cognitive Skills` entries (scores 2 and 4) for the
same bucket. -/
def w5Logs : List ObservationLog :=
  [mkLog "w1" "Gil" 3 [mkCS "Cognitive Skills" 2, mkCS "Cognitive Skills" 4]]

/-- One record whose `categories` field is absent. -/
def r10Logs : List ObservationLog :=
  [⟨"", "r1", "Hal", ⟨2024, 0, 4⟩, "", [], none⟩]

/-- 2024-01-15 (January 2024 started on a Monday, weekday index 1). -/
def d8 : JSDate := ⟨2024, 0, 15⟩

/-- Alert whose score 2 lies in both `Cognitive Skills` catalog bands
`[1, 2]` and `[2, 3]`. -/
def w6Alert : InterventionAlert :=
  ⟨"s6", "Ivy", AlertType.threshold, "Cognitive Skills", Severity.low, 2, 5/2, 0⟩

/-! ## Basic lemmas about the JavaScript-modelling combinators -/

theorem insertLe_perm (le : α → α → Bool) (a : α) (l : List α) :
    List.Perm (insertLe le a l) (a :: l) := by
  induction l with
  | nil => simp [insertLe]
  | cons b l ih =>
    by_cases h : le a b = true
    · simp [insertLe, h]
    · simp only [insertLe, if_neg h]
      exact (List.Perm.cons b ih).trans (List.Perm.swap a b l)

theorem sortBy_perm (le : α → α → Bool) (l : List α) : List.Perm (sortBy le l) l := by
  induction l with
  | nil => simp [sortBy]
  | cons a l ih => exact (insertLe_perm le a (sortBy le l)).trans (List.Perm.cons a ih)

theorem mem_sortBy {le : α → α → Bool} {l : List α} {x : α} :
    x ∈ sortBy le l ↔ x ∈ l :=
  (sortBy_perm le l).mem_iff

theorem length_sortBy (le : α → α → Bool) (l : List α) :
    (sortBy le l).length = l.length :=
  (sortBy_perm le l).length_eq

theorem mem_occKeys_aux (l : List String) :
    ∀ (acc : List String) (x : String),
      x ∈ l.foldl (fun acc k => if k ∈ acc then acc else acc ++ [k]) acc ↔
        x ∈ acc ∨ x ∈ l := by
  induction l with
  | nil => simp
  | cons a l ih =>
    intro acc x
    by_cases h : a ∈ acc
    · simp only [List.foldl_cons, h, if_pos, ih acc x, List.mem_cons]
      constructor
      · rintro (hx | hx)
        · exact Or.inl hx
        · exact Or.inr (Or.inr hx)
      · rintro (hx | rfl | hx)
        · exact Or.inl hx
        · exact Or.inl h
        · exact Or.inr hx
    · simp only [List.foldl_cons, h, if_neg, ite_false,
        ih (acc ++ [a]) x, List.mem_append, List.mem_singleton, List.mem_cons]
      tauto

theorem mem_occKeys {l : List String} {x : String} : x ∈ occKeys l ↔ x ∈ l := by
  simpa [occKeys] using mem_occKeys_aux l [] x

theorem occKeys_nodup_aux (l : List String) :
    ∀ acc : List String, acc.Nodup →
      (l.foldl (fun acc k => if k ∈ acc then acc else acc ++ [k]) acc).Nodup := by
  induction l with
  | nil => intro acc h; simpa using h
  | cons a l ih =>
    intro acc h
    by_cases ha : a ∈ acc
    · simpa [ha] using ih acc h
    · simp only [List.foldl_cons, ha, if_neg, ite_false]
      refine ih (acc ++ [a]) ?_
      rw [List.nodup_append]
      refine ⟨h, List.nodup_singleton a, ?_⟩
      intro x hx hxa
      rw [List.mem_singleton] at hxa
      subst hxa
      exact ha hx

theorem occKeys_nodup (l : List String) : (occKeys l).Nodup :=
  occKeys_nodup_aux l [] List.nodup_nil

theorem occKeys_append_single (l : List String) (x : String) :
    occKeys (l ++ [x]) = if x ∈ occKeys l then occKeys l else occKeys l ++ [x] := by
  simp [occKeys, List.foldl_append]

theorem findVal_mapKeys (ks : List String) (g : String → α) (k : String) :
    findVal (ks.map (fun x => (x, g x))) k = if k ∈ ks then some (g k) else none := by
  induction ks with
  | nil => simp [findVal]
  | cons a ks ih =>
    by_cases h : a = k
    · subst h; simp [findVal]
    · simp [findVal, h, ih, Ne.symm h]

theorem findVal_eq_none_iff {m : List (String × α)} {k : String} :
    findVal m k = none ↔ ∀ p ∈ m, p.1 ≠ k := by
  induction m with
  | nil => simp [findVal]
  | cons p m ih =>
    by_cases h : p.1 = k
    · simp [findVal, h]
    · simp [findVal, h, ih]

theorem updateVal_id (m : List (String × α)) (k : String) :
    updateVal m k (fun a => a) = m := by
  simp only [updateVal]
  refine List.map_congr_left ?_ |>.trans (List.map_id m)
  intro p _
  by_cases h : p.1 = k
  · subst h; simp
  · simp [h]

theorem updateVal_comp (m : List (String × α)) (k : String) (f g : α → α) :
    updateVal (updateVal m k f) k g = updateVal m k (fun a => g (f a)) := by
  simp only [updateVal, List.map_map]
  refine List.map_congr_left ?_
  intro p _
  by_cases h : p.1 = k
  · simp [Function.comp, h]
  · simp [Function.comp, h]

theorem updateVal_append (m m' : List (String × α)) (k : String) (f : α → α) :
    updateVal (m ++ m') k f = updateVal m k f ++ updateVal m' k f := by
  simp [updateVal]

theorem updateVal_of_ne (m : List (String × α)) (k : String) (f : α → α)
    (h : ∀ p ∈ m, p.1 ≠ k) : updateVal m k f = m := by
  simp only [updateVal]
  refine List.map_congr_left ?_ |>.trans (List.map_id m)
  intro p hp
  simp [h p hp]

theorem updateVal_mapKeys (ks : List String) (g : String → α) (k : String) (f : α → α) :
    updateVal (ks.map (fun x => (x, g x))) k f
      = ks.map (fun x => (x, if x = k then f (g x) else g x)) := by
  simp only [updateVal, List.map_map]
  refine List.map_congr_left ?_
  intro x _
  by_cases h : x = k
  · simp [Function.comp, h]
  · simp [Function.comp, h]

theorem foldl_updateVal (l : List γ) (upd : α → γ → α) (m : List (String × α)) (k : String) :
    l.foldl (fun m0 c => updateVal m0 k (fun a => upd a c)) m
      = updateVal m k (fun a => l.foldl upd a) := by
  induction l generalizing m with
  | nil => simp [updateVal_id]
  | cons c l ih =>
    simp only [List.foldl_cons, ih, updateVal_comp]

theorem foldl_append_map (l : List γ) (g : γ → β) (acc : List β) :
    l.foldl (fun a x => a ++ [g x]) acc = acc ++ l.map g := by
  induction l generalizing acc with
  | nil => simp
  | cons x l ih => simp [ih]

theorem foldl_append_sections (l : List α) (f : α → List β) (acc : List β) :
    l.foldl (fun acc a => acc ++ f a) acc = acc ++ l.flatMap f := by
  induction l generalizing acc with
  | nil => simp
  | cons a l ih => simp [ih]

theorem foldl_push_band (l : List γ) (p : γ → Prop) [DecidablePred p] (g : γ → β)
    (acc : List β) :
    l.foldl (fun acc r => if p r then acc ++ [g r] else acc) acc
      = acc ++ (l.filter (fun r => p r)).map g := by
  induction l generalizing acc with
  | nil => simp
  | cons r l ih =>
    by_cases h : p r
    · simp [h, ih]
    · simp [h, ih]

/-! ## Closed form of the `groupFold` accumulation -/

theorem headD_append_of_ne_nil (l l' : List β) (d : β) (h : l ≠ []) :
    (l ++ l').headD d = l.headD d := by
  cases l with
  | nil => exact absurd rfl h
  | cons a l => simp

theorem groupVal_append_ne [Inhabited β] (key : β → String) (init : β → α)
    (upd : α → γ → α) (items : β → List γ) (bs : List β) (b : β) (k : String)
    (h : ¬ key b = k) :
    groupVal key init upd items (bs ++ [b]) k = groupVal key init upd items bs k := by
  simp [groupVal, List.filter_append, h]

theorem groupVal_append_hit [Inhabited β] (key : β → String) (init : β → α)
    (upd : α → γ → α) (items : β → List γ) (bs : List β) (b : β) (k : String)
    (hk : key b = k) (hne : bs.filter (fun x => key x = k) ≠ []) :
    groupVal key init upd items (bs ++ [b]) k
      = (items b).foldl upd (groupVal key init upd items bs k) := by
  have hfil : (bs ++ [b]).filter (fun x => key x = k)
      = bs.filter (fun x => key x = k) ++ [b] := by
    simp [List.filter_append, hk]
  simp only [groupVal, hfil, List.flatMap_append, List.foldl_append,
    headD_append_of_ne_nil _ _ _ hne]
  simp

theorem groupVal_append_new [Inhabited β] (key : β → String) (init : β → α)
    (upd : α → γ → α) (items : β → List γ) (bs : List β) (b : β) (k : String)
    (hk : key b = k) (hnil : bs.filter (fun x => key x = k) = []) :
    groupVal key init upd items (bs ++ [b]) k = (items b).foldl upd (init b) := by
  have hfil : (bs ++ [b]).filter (fun x => key x = k) = [b] := by
    simp [List.filter_append, hk, hnil]
  simp [groupVal, hfil]

theorem groupSpec_key_mem [Inhabited β] {key : β → String} {init : β → α}
    {upd : α → γ → α} {items : β → List γ} {bs : List β} {p : String × α}
    (hp : p ∈ groupSpec key init upd items bs) :
    p.1 ∈ occKeys (bs.map key) ∧ p.2 = groupVal key init upd items bs p.1 := by
  obtain ⟨x, hx, rfl⟩ := List.mem_map.mp hp
  exact ⟨hx, rfl⟩

theorem groupStep_spec [Inhabited β] (key : β → String) (init : β → α)
    (upd : α → γ → α) (items : β → List γ) (pref : List β) (b : β) :
    groupStep key init upd items (groupSpec key init upd items pref) b
      = groupSpec key init upd items (pref ++ [b]) := by
  classical
  by_cases hk : key b ∈ occKeys (pref.map key)
  · have hfil : pref.filter (fun x => key x = key b) ≠ [] := by
      rw [mem_occKeys] at hk
      obtain ⟨x, hx, hxk⟩ := List.mem_map.mp hk
      intro hcon
      have hmem : x ∈ pref.filter (fun x => key x = key b) :=
        List.mem_filter.mpr ⟨hx, by simp [hxk]⟩
      rw [hcon] at hmem
      exact (List.not_mem_nil x) hmem
    have hfind : (findVal (groupSpec key init upd items pref) (key b)).isSome := by
      rw [groupSpec, findVal_mapKeys, if_pos hk]
      rfl
    have hmapkey : (pref ++ [b]).map key = pref.map key ++ [key b] := by simp
    rw [groupStep, ensureKey, if_pos hfind, foldl_updateVal, groupSpec, updateVal_mapKeys,
      groupSpec, hmapkey, occKeys_append_single, if_pos hk]
    refine List.map_congr_left ?_
    intro x hx
    by_cases hxk : x = key b
    · subst hxk
      rw [if_pos rfl, groupVal_append_hit key init upd items pref b (key b) rfl hfil]
    · rw [if_neg hxk,
        groupVal_append_ne key init upd items pref b x (fun h => hxk h.symm)]
  · have hfil : pref.filter (fun x => key x = key b) = [] := by
      rw [mem_occKeys] at hk
      refine List.eq_nil_iff_forall_not_mem.mpr ?_
      intro x hx
      have hx1 := List.mem_filter.mp hx
      have : key x = key b := by simpa using hx1.2
      exact hk (this ▸ List.mem_map_of_mem key hx1.1)
    have hfind : findVal (groupSpec key init upd items pref) (key b) = none := by
      rw [groupSpec, findVal_mapKeys, if_neg hk]
    have hne : ∀ p ∈ groupSpec key init upd items pref, p.1 ≠ key b := by
      intro p hp
      obtain ⟨x, hx, rfl⟩ := List.mem_map.mp hp
      intro hcon
      have hxq : x = key b := hcon
      rw [hxq] at hx
      exact hk hx
    have hmapkey : (pref ++ [b]).map key = pref.map key ++ [key b] := by simp
    rw [groupStep, ensureKey, hfind]
    simp only [Option.isSome_none, Bool.false_eq_true, if_false]
    rw [foldl_updateVal, updateVal_append, updateVal_of_ne _ _ _ hne]
    have hupd1 : updateVal [(key b, init b)] (key b)
        (fun a => (items b).foldl upd a) = [(key b, (items b).foldl upd (init b))] := by
      simp [updateVal]
    rw [hupd1]
    simp only [groupSpec, hmapkey, occKeys_append_single, if_neg hk, List.map_append,
      List.map_cons, List.map_nil]
    congr 1
    · refine List.map_congr_left ?_
      intro x hx
      have hxk : ¬ key b = x := by
        intro hcon
        exact hk (hcon ▸ hx)
      rw [groupVal_append_ne key init upd items pref b x hxk]
    · rw [groupVal_append_new key init upd items pref b (key b) rfl hfil]

theorem groupFold_aux [Inhabited β] (key : β → String) (init : β → α)
    (upd : α → γ → α) (items : β → List γ) :
    ∀ (bs pref : List β),
      bs.foldl (groupStep key init upd items) (groupSpec key init upd items pref)
        = groupSpec key init upd items (pref ++ bs) := by
  intro bs
  induction bs with
  | nil => intro pref; simp
  | cons b bs ih =>
    intro pref
    have h1 : groupStep key init upd items (groupSpec key init upd items pref) b
        = groupSpec key init upd items (pref ++ [b]) :=
      groupStep_spec key init upd items pref b
    calc (b :: bs).foldl (groupStep key init upd items)
          (groupSpec key init upd items pref)
        = bs.foldl (groupStep key init upd items)
            (groupSpec key init upd items (pref ++ [b])) := by
          rw [List.foldl_cons, h1]
      _ = groupSpec key init upd items ((pref ++ [b]) ++ bs) := ih (pref ++ [b])
      _ = groupSpec key init upd items (pref ++ b :: bs) := by
          rw [List.append_assoc]
          rfl

theorem groupFold_eq_groupSpec [Inhabited β] (key : β → String) (init : β → α)
    (upd : α → γ → α) (items : β → List γ) (bs : List β) :
    groupFold key init upd items bs = groupSpec key init upd items bs := by
  have h0 : groupSpec key init upd items ([] : List β) = [] := by
    simp [groupSpec, occKeys]
  have h := groupFold_aux key init upd items bs []
  rw [h0] at h
  simpa [groupFold] using h

/-! ## Closed forms of the three accumulation loops of `analytics.ts` -/

theorem addScore_eq_groupStep (m : List (String × List ℚ)) (cs : CategoryScore) :
    addScore m cs
      = groupStep (fun cs => cs.category) (fun _ => []) (fun arr c => arr ++ [c.score])
          (fun cs => [cs]) m cs := by
  by_cases h : (findVal m cs.category).isSome
  · simp [addScore, groupStep, ensureKey, h]
  · have hnone : findVal m cs.category = none := by
      cases hfv : findVal m cs.category
      · rfl
      · rw [hfv] at h; exact absurd rfl h
    have hne : ∀ p ∈ m, p.1 ≠ cs.category := findVal_eq_none_iff.mp hnone
    simp only [addScore, groupStep, ensureKey, hnone, Option.isSome_none,
      Bool.false_eq_true, if_false, ite_false, List.foldl_cons, List.foldl_nil]
    rw [updateVal_append, updateVal_of_ne _ _ _ hne]
    simp [updateVal]

theorem foldl_addScore_eq (entries : List CategoryScore) :
    entries.foldl addScore []
      = (occKeys (entries.map (fun cs => cs.category))).map (fun c =>
          (c, (entries.filter (fun cs => cs.category = c)).map (fun cs => cs.score))) := by
  have haux : ∀ (l : List CategoryScore) (m : List (String × List ℚ)),
      l.foldl addScore m
        = l.foldl (groupStep (fun cs => cs.category) (fun _ => [])
            (fun arr c => arr ++ [c.score]) (fun cs => [cs])) m := by
    intro l
    induction l with
    | nil => intro m; rfl
    | cons cs l ih =>
      intro m
      rw [List.foldl_cons, List.foldl_cons, addScore_eq_groupStep, ih]
  rw [haux]
  rw [show ∀ (l : List CategoryScore),
      l.foldl (groupStep (fun cs => cs.category) (fun _ => [])
        (fun arr c => arr ++ [c.score]) (fun cs => [cs])) []
      = groupFold (fun cs => cs.category) (fun _ => [])
          (fun arr c => arr ++ [c.score]) (fun cs => [cs]) l from fun _ => rfl,
    groupFold_eq_groupSpec]
  simp only [groupSpec, groupVal, List.flatMap_singleton']
  refine List.map_congr_left ?_
  intro c _
  rw [foldl_append_map]
  simp

theorem groupLogsByStudent_eq (logs : List ObservationLog) :
    groupLogsByStudent logs
      = (occKeys (logs.map (fun log => log.studentId))).map (fun sid =>
          (sid, studentLogsOf logs sid)) := by
  rw [groupLogsByStudent, groupFold_eq_groupSpec]
  simp only [groupSpec, groupVal, List.flatMap_singleton']
  refine List.map_congr_left ?_
  intro sid _
  rw [foldl_append_map]
  simp [studentLogsOf]

theorem buildBuckets_eq (keyF : JSDate → String) (logs : List ObservationLog) :
    buildBuckets keyF logs
      = (occKeys (logs.map (fun log => keyF log.timestamp))).map (fun p =>
          (p, (bucketEntries logs keyF p).foldl addScore [])) := by
  rw [buildBuckets, groupFold_eq_groupSpec]
  simp only [groupSpec, groupVal, bucketEntries]

theorem foldl_pair_snd (l : List γ) (f : α → γ → α) (n : String) (a : α) :
    l.foldl (fun p c => (p.1, f p.2 c)) (n, a) = (n, l.foldl f a) := by
  induction l generalizing a with
  | nil => rfl
  | cons c l ih => simp only [List.foldl_cons]; exact ih (f a c)

theorem studentLogsOf_ne_nil_of_mem {logs : List ObservationLog} {sid : String}
    (h : sid ∈ occKeys (logs.map (fun log => log.studentId))) :
    studentLogsOf logs sid ≠ [] := by
  rw [mem_occKeys] at h
  obtain ⟨log, hlog, hsid⟩ := List.mem_map.mp h
  intro hcon
  have : log ∈ studentLogsOf logs sid :=
    List.mem_filter.mpr ⟨hlog, by simp [hsid]⟩
  rw [hcon] at this
  exact (List.not_mem_nil log) this

theorem buildStudentScores_eq (logs : List ObservationLog) :
    buildStudentScores logs
      = (occKeys (logs.map (fun log => log.studentId))).map (fun sid =>
          (sid, (headStudentName (studentLogsOf logs sid),
            ((studentLogsOf logs sid).flatMap jsCats).foldl addScore []))) := by
  rw [buildStudentScores, groupFold_eq_groupSpec]
  simp only [groupSpec, groupVal]
  refine List.map_congr_left ?_
  intro sid hsid
  have hne : studentLogsOf logs sid ≠ [] := studentLogsOf_ne_nil_of_mem hsid
  have hfil : logs.filter (fun b => b.studentId = sid) = studentLogsOf logs sid := rfl
  rw [hfil, foldl_pair_snd]
  cases hcase : studentLogsOf logs sid with
  | nil => exact absurd hcase hne
  | cons l rest => simp [headStudentName]

/-! ## Lemmas about the alert pipeline -/
theorem mem_declineAlertsFor {sid name c : String} {slogs : List ObservationLog}
    {a : InterventionAlert} (h : a ∈ declineAlertsFor sid name c slogs) :
    3 ≤ (windowScoresOf slogs c).length ∧ 0 < (olderScoresOf slogs c).length ∧
    1/2 < declineOf slogs c ∧
    a = { studentId := sid, studentName := name, alertType := AlertType.decline,
          category := c,
          severity := if 1 < declineOf slogs c then Severity.high
            else if 7/10 < declineOf slogs c then Severity.medium else Severity.low,
          score := avgQ (recentScoresOf slogs c),
          threshold := avgQ (olderScoresOf slogs c),
          trend := declineOf slogs c } := by
  unfold declineAlertsFor at h
  by_cases h1 : 3 ≤ (windowScoresOf slogs c).length
  · rw [if_pos h1] at h
    by_cases h2 : 0 < (olderScoresOf slogs c).length
    · rw [if_pos h2] at h
      by_cases h3 : 1/2 < declineOf slogs c
      · rw [if_pos h3, List.mem_singleton] at h
        exact ⟨h1, h2, h3, h⟩
      · rw [if_neg h3] at h; simp at h
    · rw [if_neg h2] at h; simp at h
  · rw [if_neg h1] at h; simp at h

theorem mem_thresholdAlertsFor {sid name c : String} {slogs : List ObservationLog}
    {a : InterventionAlert} (h : a ∈ thresholdAlertsFor sid name c slogs) :
    lastScore (windowScoresOf slogs c) < 5/2 ∧
    a = { studentId := sid, studentName := name, alertType := AlertType.threshold,
          category := c,
          severity := if lastScore (windowScoresOf slogs c) < 3/2 then Severity.high
            else if lastScore (windowScoresOf slogs c) < 2 then Severity.medium
            else Severity.low,
          score := lastScore (windowScoresOf slogs c), threshold := 5/2, trend := 0 } := by
  unfold thresholdAlertsFor at h
  by_cases h1 : lastScore (windowScoresOf slogs c) < 5/2
  · rw [if_pos h1, List.mem_singleton] at h
    exact ⟨h1, h⟩
  · rw [if_neg h1] at h; simp at h

theorem mem_pairAlertsFor_fields {sid name c : String} {slogs : List ObservationLog}
    {a : InterventionAlert} (h : a ∈ pairAlertsFor sid name slogs c) :
    a.studentId = sid ∧ a.category = c := by
  unfold pairAlertsFor at h
  by_cases h1 : 3 ≤ (categoryLogsOf slogs c).length
  case neg => rw [if_neg h1] at h; simp at h
  · rw [if_pos h1, List.mem_append] at h
    rcases h with h | h
    · rcases mem_declineAlertsFor h with ⟨-, -, -, rfl⟩
      exact ⟨rfl, rfl⟩
    · rcases mem_thresholdAlertsFor h with ⟨-, rfl⟩
      exact ⟨rfl, rfl⟩

theorem mem_genAlerts_iff {logs : List ObservationLog} {a : InterventionAlert} :
    a ∈ generateInterventionAlerts logs ↔
      ∃ sid, sid ∈ occKeys (logs.map (fun log => log.studentId)) ∧ ∃ c, c ∈ CATEGORIES ∧
        a ∈ pairAlertsFor sid (headStudentName (studentLogsOf logs sid))
            (studentLogsOf logs sid) c := by
  rw [generateInterventionAlerts, mem_sortBy, groupLogsByStudent_eq]
  simp only [List.mem_flatMap, List.mem_map]
  constructor
  · rintro ⟨p, ⟨sid, hsid, rfl⟩, c, hc, ha⟩
    exact ⟨sid, hsid, c, hc, ha⟩
  · rintro ⟨sid, hsid, c, hc, ha⟩
    exact ⟨(sid, studentLogsOf logs sid), ⟨sid, hsid, rfl⟩, c, hc, ha⟩

theorem flatMap_length_ge {l : List α} {f : α → List β} (h : ∀ x ∈ l, f x ≠ []) :
    l.length ≤ (l.flatMap f).length := by
  induction l with
  | nil => simp
  | cons x l ih =>
    simp only [List.flatMap_cons, List.length_append, List.length_cons]
    have h1 : 1 ≤ (f x).length := by
      cases hfx : f x
      · exact absurd hfx (h x (List.mem_cons_self x l))
      · simp
    have h2 := ih (fun y hy => h y (List.mem_cons_of_mem x hy))
    omega

theorem catLogs_le_windowScores (slogs : List ObservationLog) (c : String) :
    (categoryLogsOf slogs c).length ≤ (windowScoresOf slogs c).length := by
  rw [windowScoresOf, sortScoresJs, length_sortBy, rawScoresOf, List.length_map]
  refine flatMap_length_ge ?_
  intro log hlog
  have h1 := (List.mem_filter.mp hlog).2
  rw [hasCategoryEntry] at h1
  obtain ⟨cs, hcs, hcat⟩ := List.any_eq_true.mp h1
  intro hcon
  have : cs ∈ (jsCats log).filter (fun cs => cs.category = c) :=
    List.mem_filter.mpr ⟨hcs, hcat⟩
  rw [hcon] at this
  exact (List.not_mem_nil cs) this

theorem sid_mem_of_catLogs {logs : List ObservationLog} {sid c : String}
    (h : 0 < (categoryLogsOf (studentLogsOf logs sid) c).length) :
    sid ∈ occKeys (logs.map (fun log => log.studentId)) := by
  rw [mem_occKeys]
  obtain ⟨log, hlog⟩ := List.exists_mem_of_length_pos h
  have h1 := (List.mem_filter.mp hlog).1
  have h2 := List.mem_filter.mp h1
  have h3 : log.studentId = sid := by simpa using h2.2
  exact h3 ▸ List.mem_map_of_mem (fun log => log.studentId) h2.1

/-! ## Claim theorems: alerts (C1, C2, C3) -/

set_option maxHeartbeats 2000000 in
/-- Claim C1, divergence witness: in `c1Logs` the pair (`"s1"`,
`"Communication"`) has six records scoring 5, 5, 5, 2, 2, 2 in chronological
order, so the claim's chronological windowing would make the recent window
`[2, 2, 2]`, the older window `[5, 5, 5]` (a decline of 3) and the last score
2 < 2.5. The sequence the code actually windows over is the value-sorted
`[2, 2, 2, 5, 5, 5]` — not the chronological order — and
`generateInterventionAlerts` therefore emits no alert at all. -/
theorem claim_c1_code_bug :
    chronScoresOf c1Logs "s1" "Communication" = [5, 5, 5, 2, 2, 2] ∧
    windowScoresOf (studentLogsOf c1Logs "s1") "Communication" = [2, 2, 2, 5, 5, 5] ∧
    lastScore (chronScoresOf c1Logs "s1" "Communication") < 5/2 ∧
    generateInterventionAlerts c1Logs = [] := by
  have hchron : chronScoresOf c1Logs "s1" "Communication" = [5, 5, 5, 2, 2, 2] := by
    norm_num +decide [chronScoresOf, studentLogsOf, c1Logs, mkLog, mkCS, categoryLogsOf,
      hasCategoryEntry, jsCats, sortBy, insertLe]
  refine ⟨hchron, ?_, ?_, ?_⟩
  · norm_num +decide [windowScoresOf, sortScoresJs, sortBy, insertLe, ratTrunc,
      rawScoresOf, studentLogsOf, c1Logs, mkLog, mkCS, categoryLogsOf, hasCategoryEntry,
      jsCats]
  · rw [hchron]
    norm_num [lastScore]
  · norm_num +decide [generateInterventionAlerts, groupLogsByStudent, groupFold, groupStep,
      ensureKey, updateVal, findVal, CATEGORIES, pairAlertsFor, declineAlertsFor,
      thresholdAlertsFor, categoryLogsOf, hasCategoryEntry, jsCats, rawScoresOf,
      windowScoresOf, sortScoresJs, sortBy, insertLe, ratTrunc, recentScoresOf,
      olderScoresOf, lastScore, declineOf, avgQ, severityRank, studentLogsOf, c1Logs,
      mkLog, mkCS, headStudentName]

/-- Claim C2 (amended): for every `(studentId, category)` pair appearing in at
least 3 records that carry the category (the code guards on the record count
`categoryLogs.length >= 3`, not on the score-entry count the claim literally
names — see `claim_c2_counterexample`) and with a non-empty older window,
`generateInterventionAlerts` emits a decline alert for the pair if and only if
`mean(older 3 scores) - mean(recent 3 scores)` of the score sequence it windows
over is strictly greater than 0.5; the alert's severity is `high` if the
decline exceeds 1, `medium` if it exceeds 0.7 and `low` otherwise, and its
fields satisfy `score` = recent mean, `threshold` = older mean, `trend` =
decline. -/
theorem claim_c2_decline_rule (logs : List ObservationLog) (sid c : String)
    (hc : c ∈ CATEGORIES)
    (hrec : 3 ≤ (categoryLogsOf (studentLogsOf logs sid) c).length)
    (hold : olderScoresOf (studentLogsOf logs sid) c ≠ []) :
    ((∃ a ∈ generateInterventionAlerts logs,
        a.studentId = sid ∧ a.category = c ∧ a.alertType = AlertType.decline) ↔
      1/2 < declineOf (studentLogsOf logs sid) c) ∧
    (∀ a ∈ generateInterventionAlerts logs,
      a.studentId = sid → a.category = c → a.alertType = AlertType.decline →
        a.severity = (if 1 < declineOf (studentLogsOf logs sid) c then Severity.high
          else if 7/10 < declineOf (studentLogsOf logs sid) c then Severity.medium
          else Severity.low) ∧
        a.score = avgQ (recentScoresOf (studentLogsOf logs sid) c) ∧
        a.threshold = avgQ (olderScoresOf (studentLogsOf logs sid) c) ∧
        a.trend = declineOf (studentLogsOf logs sid) c) := by
  have hwin : 3 ≤ (windowScoresOf (studentLogsOf logs sid) c).length :=
    le_trans hrec (catLogs_le_windowScores (studentLogsOf logs sid) c)
  have holdlen : 0 < (olderScoresOf (studentLogsOf logs sid) c).length :=
    List.length_pos.mpr hold
  have hsid : sid ∈ occKeys (logs.map (fun log => log.studentId)) :=
    sid_mem_of_catLogs (lt_of_lt_of_le (by norm_num) hrec)
  constructor
  · constructor
    · rintro ⟨a, ha, hasid, hacat, hatype⟩
      rw [mem_genAlerts_iff] at ha
      obtain ⟨sid2, hsid2, c2, hc2, hpa⟩ := ha
      obtain ⟨hfid, hfcat⟩ := mem_pairAlertsFor_fields hpa
      have heq1 : sid2 = sid := by rw [← hfid, hasid]
      have heq2 : c2 = c := by rw [← hfcat, hacat]
      subst heq1
      subst heq2
      unfold pairAlertsFor at hpa
      rw [if_pos hrec, List.mem_append] at hpa
      rcases hpa with hd | ht
      · exact (mem_declineAlertsFor hd).2.2.1
      · rcases mem_thresholdAlertsFor ht with ⟨-, rfl⟩
        simp at hatype
    · intro hdec
      refine ⟨{ studentId := sid,
                studentName := headStudentName (studentLogsOf logs sid),
                alertType := AlertType.decline, category := c,
                severity := if 1 < declineOf (studentLogsOf logs sid) c then Severity.high
                  else if 7/10 < declineOf (studentLogsOf logs sid) c then Severity.medium
                  else Severity.low,
                score := avgQ (recentScoresOf (studentLogsOf logs sid) c),
                threshold := avgQ (olderScoresOf (studentLogsOf logs sid) c),
                trend := declineOf (studentLogsOf logs sid) c }, ?_, rfl, rfl, rfl⟩
      rw [mem_genAlerts_iff]
      refine ⟨sid, hsid, c, hc, ?_⟩
      unfold pairAlertsFor
      rw [if_pos hrec, List.mem_append]
      left
      unfold declineAlertsFor
      rw [if_pos hwin, if_pos holdlen, if_pos hdec]
      exact List.mem_singleton.mpr rfl
  · intro a ha hasid hacat hatype
    rw [mem_genAlerts_iff] at ha
    obtain ⟨sid2, hsid2, c2, hc2, hpa⟩ := ha
    obtain ⟨hfid, hfcat⟩ := mem_pairAlertsFor_fields hpa
    have heq1 : sid2 = sid := by rw [← hfid, hasid]
    have heq2 : c2 = c := by rw [← hfcat, hacat]
    subst heq1
    subst heq2
    unfold pairAlertsFor at hpa
    rw [if_pos hrec, List.mem_append] at hpa
    rcases hpa with hd | ht
    · rcases mem_declineAlertsFor hd with ⟨-, -, -, rfl⟩
      exact ⟨rfl, rfl, rfl, rfl⟩
    · rcases mem_thresholdAlertsFor ht with ⟨-, rfl⟩
      simp at hatype

set_option maxHeartbeats 2000000 in
/-- Claim C2, counterexample to the claim as stated: `c2xLogs` holds a single
record carrying six `Cognitive Skills` score entries (3.9, 3.9, 3.9, 3.3, 3.3,
3.3), so the pair has at least 3 contributing score entries, a non-empty older
window, and a decline of 0.6 > 0.5 — yet `generateInterventionAlerts` emits no
alert at all, because the code requires three *records* containing the
category, not three score entries. -/
theorem claim_c2_counterexample :
    (rawScoresOf (studentLogsOf c2xLogs "s2") "Cognitive Skills").length = 6 ∧
    olderScoresOf (studentLogsOf c2xLogs "s2") "Cognitive Skills" ≠ [] ∧
    1/2 < declineOf (studentLogsOf c2xLogs "s2") "Cognitive Skills" ∧
    generateInterventionAlerts c2xLogs = [] := by
  refine ⟨?_, ?_, ?_, ?_⟩
  · norm_num +decide [rawScoresOf, studentLogsOf, c2xLogs, mkLog, mkCS, categoryLogsOf,
      hasCategoryEntry, jsCats]
  · norm_num +decide [olderScoresOf, windowScoresOf, sortScoresJs, sortBy, insertLe,
      ratTrunc, rawScoresOf, studentLogsOf, c2xLogs, mkLog, mkCS, categoryLogsOf,
      hasCategoryEntry, jsCats]
  · norm_num +decide [declineOf, avgQ, olderScoresOf, recentScoresOf, windowScoresOf,
      sortScoresJs, sortBy, insertLe, ratTrunc, rawScoresOf, studentLogsOf, c2xLogs,
      mkLog, mkCS, categoryLogsOf, hasCategoryEntry, jsCats]
  · norm_num +decide [generateInterventionAlerts, groupLogsByStudent, groupFold, groupStep,
      ensureKey, updateVal, findVal, CATEGORIES, pairAlertsFor, declineAlertsFor,
      thresholdAlertsFor, categoryLogsOf, hasCategoryEntry, jsCats, rawScoresOf,
      windowScoresOf, sortScoresJs, sortBy, insertLe, ratTrunc, recentScoresOf,
      olderScoresOf, lastScore, declineOf, avgQ, severityRank, studentLogsOf, c2xLogs,
      mkLog, mkCS, headStudentName]

set_option maxHeartbeats 2000000 in
/-- Claim C2, witness: on `c2wLogs` (six records, scores 3.9, 3.9, 3.9, 3.39,
3.39, 3.39, decline exactly 0.51) the amended rule yields a `low`-severity
decline alert with `trend` 0.51, and on `c2wLogs0` (decline exactly 0.5) it
yields none. -/
theorem claim_c2_witness :
    (∃ a ∈ generateInterventionAlerts c2wLogs,
      a.studentId = "s2w" ∧ a.category = "Creativity" ∧ a.alertType = AlertType.decline ∧
      a.severity = Severity.low ∧ a.trend = 51/100) ∧
    ¬ (∃ a ∈ generateInterventionAlerts c2wLogs0,
      a.studentId = "s2z" ∧ a.category = "Creativity" ∧ a.alertType = AlertType.decline) := by
  constructor
  · have h := claim_c2_decline_rule c2wLogs "s2w" "Creativity" (by decide)
      (by norm_num +decide [categoryLogsOf, hasCategoryEntry, jsCats, studentLogsOf,
        c2wLogs, mkLog, mkCS])
      (by norm_num +decide [olderScoresOf, windowScoresOf, sortScoresJs, sortBy, insertLe,
        ratTrunc, rawScoresOf, studentLogsOf, c2wLogs, mkLog, mkCS, categoryLogsOf,
        hasCategoryEntry, jsCats])
    have hdec : declineOf (studentLogsOf c2wLogs "s2w") "Creativity" = 51/100 := by
      norm_num +decide [declineOf, avgQ, olderScoresOf, recentScoresOf, windowScoresOf,
        sortScoresJs, sortBy, insertLe, ratTrunc, rawScoresOf, studentLogsOf, c2wLogs,
        mkLog, mkCS, categoryLogsOf, hasCategoryEntry, jsCats]
    obtain ⟨a, ha, h1, h2, h3⟩ := h.1.mpr (by rw [hdec]; norm_num)
    have hfields := h.2 a ha h1 h2 h3
    refine ⟨a, ha, h1, h2, h3, ?_, ?_⟩
    · rw [hfields.1, hdec]
      norm_num
    · rw [hfields.2.2.2, hdec]
  · rintro ⟨a, ha, h1, h2, h3⟩
    have h := claim_c2_decline_rule c2wLogs0 "s2z" "Creativity" (by decide)
      (by norm_num +decide [categoryLogsOf, hasCategoryEntry, jsCats, studentLogsOf,
        c2wLogs0, mkLog, mkCS])
      (by norm_num +decide [olderScoresOf, windowScoresOf, sortScoresJs, sortBy, insertLe,
        ratTrunc, rawScoresOf, studentLogsOf, c2wLogs0, mkLog, mkCS, categoryLogsOf,
        hasCategoryEntry, jsCats])
    have hdec0 : declineOf (studentLogsOf c2wLogs0 "s2z") "Creativity" = 1/2 := by
      norm_num +decide [declineOf, avgQ, olderScoresOf, recentScoresOf, windowScoresOf,
        sortScoresJs, sortBy, insertLe, ratTrunc, rawScoresOf, studentLogsOf, c2wLogs0,
        mkLog, mkCS, categoryLogsOf, hasCategoryEntry, jsCats]
    have hlt := h.1.mp ⟨a, ha, h1, h2, h3⟩
    rw [hdec0] at hlt
    exact absurd hlt (by norm_num)

set_option maxHeartbeats 2000000 in
/-- Claim C3, divergence witness: in `c3Logs` the pair (`"s3"`,
`"Social Skills"`) has three records scoring 4, 4, 2 in chronological order.
The chronologically last score is 2, strictly below 2.5, so the claim requires
a threshold alert — but the sequence the code actually windows over is the
value-sorted `[2, 4, 4]` (scores sorted as epoch milliseconds, line 203), its
last element is 4, and `generateInterventionAlerts` emits nothing. -/
theorem claim_c3_code_bug :
    chronScoresOf c3Logs "s3" "Social Skills" = [4, 4, 2] ∧
    lastScore (chronScoresOf c3Logs "s3" "Social Skills") < 5/2 ∧
    windowScoresOf (studentLogsOf c3Logs "s3") "Social Skills" = [2, 4, 4] ∧
    generateInterventionAlerts c3Logs = [] := by
  have hchron : chronScoresOf c3Logs "s3" "Social Skills" = [4, 4, 2] := by
    norm_num +decide [chronScoresOf, studentLogsOf, c3Logs, mkLog, mkCS, categoryLogsOf,
      hasCategoryEntry, jsCats, sortBy, insertLe]
  refine ⟨hchron, ?_, ?_, ?_⟩
  · rw [hchron]
    norm_num [lastScore]
  · norm_num +decide [windowScoresOf, sortScoresJs, sortBy, insertLe, ratTrunc,
      rawScoresOf, studentLogsOf, c3Logs, mkLog, mkCS, categoryLogsOf, hasCategoryEntry,
      jsCats]
  · norm_num +decide [generateInterventionAlerts, groupLogsByStudent, groupFold, groupStep,
      ensureKey, updateVal, findVal, CATEGORIES, pairAlertsFor, declineAlertsFor,
      thresholdAlertsFor, categoryLogsOf, hasCategoryEntry, jsCats, rawScoresOf,
      windowScoresOf, sortScoresJs, sortBy, insertLe, ratTrunc, recentScoresOf,
      olderScoresOf, lastScore, declineOf, avgQ, severityRank, studentLogsOf, c3Logs,
      mkLog, mkCS, headStudentName]

/-! ## Counting lemmas for bucket observation totals -/

theorem length_filter_split (l : List γ) (p : γ → Prop) [DecidablePred p] :
    (l.filter (fun x => p x)).length + (l.filter (fun x => ¬ p x)).length = l.length := by
  induction l with
  | nil => simp
  | cons x l ih =>
    simp only [decide_not] at ih ⊢
    by_cases h : p x
    · simp [List.filter_cons, h]
      omega
    · simp [List.filter_cons, h]
      omega

theorem filter_sub_filter (f : γ → String) (k k2 : String) (hkk : k2 ≠ k) (l : List γ) :
    (l.filter (fun x => ¬ f x = k)).filter (fun x => f x = k2)
      = l.filter (fun x => f x = k2) := by
  induction l with
  | nil => simp
  | cons x l ih =>
    simp only [decide_not] at ih ⊢
    have hkk2 : ¬ k = k2 := fun h => hkk h.symm
    by_cases hx : f x = k2
    · have hxk : ¬ f x = k := by rw [hx]; exact hkk
      simp [List.filter_cons, hx, hxk, hkk, ih]
    · by_cases hxk : f x = k
      · simp [List.filter_cons, hx, hxk, hkk2, ih]
      · simp [List.filter_cons, hx, hxk, ih]

theorem sum_partition_aux (f : γ → String) :
    ∀ (ks : List String) (l : List γ), ks.Nodup → (∀ x ∈ l, f x ∈ ks) →
      ((ks.map (fun k => (l.filter (fun x => f x = k)).length)).sum = l.length) := by
  intro ks
  induction ks with
  | nil =>
    intro l _ hcov
    cases l with
    | nil => simp
    | cons x l => exact absurd (hcov x (List.mem_cons_self x l)) (List.not_mem_nil _)
  | cons k ks ih =>
    intro l hnd hcov
    have hnd2 := List.nodup_cons.mp hnd
    have hcov2 : ∀ x ∈ l.filter (fun x => ¬ f x = k), f x ∈ ks := by
      intro x hx
      have h1 := List.mem_filter.mp hx
      have h2 : ¬ f x = k := by
        have := h1.2
        simp only [decide_not] at this
        simpa using this
      rcases List.mem_cons.mp (hcov x h1.1) with h | h
      · exact absurd h h2
      · exact h
    have hsum := ih (l.filter (fun x => ¬ f x = k)) hnd2.2 hcov2
    have hfeq : ∀ k2 ∈ ks,
        ((l.filter (fun x => ¬ f x = k)).filter (fun x => f x = k2)).length
          = (l.filter (fun x => f x = k2)).length := by
      intro k2 hk2
      have hkk : k2 ≠ k := by
        intro hcon
        exact hnd2.1 (hcon ▸ hk2)
      rw [filter_sub_filter f k k2 hkk]
    have hmapeq : (ks.map (fun k2 => ((l.filter (fun x => ¬ f x = k)).filter
        (fun x => f x = k2)).length)).sum
          = (ks.map (fun k2 => (l.filter (fun x => f x = k2)).length)).sum := by
      refine congrArg List.sum (List.map_congr_left ?_)
      intro k2 hk2
      exact hfeq k2 hk2
    rw [List.map_cons, List.sum_cons, ← hmapeq, hsum]
    exact length_filter_split l (fun x => f x = k)

theorem sum_partition (f : γ → String) (l : List γ) :
    ((occKeys (l.map f)).map (fun k => (l.filter (fun x => f x = k)).length)).sum
      = l.length := by
  refine sum_partition_aux f (occKeys (l.map f)) l (occKeys_nodup _) ?_
  intro x hx
  exact mem_occKeys.mpr (List.mem_map_of_mem f hx)

/-! ## Claim theorems: trends (C5, C10) -/

theorem trendsOfBuckets_eq (keyF : JSDate → String) (logs : List ObservationLog) :
    trendsOfBuckets keyF logs
      = (occKeys (logs.map (fun log => keyF log.timestamp))).map (fun p =>
          { period := p,
            scores := scoresAvgMap ((bucketEntries logs keyF p).foldl addScore []),
            totalObservations :=
              totalObsOf ((bucketEntries logs keyF p).foldl addScore []) }) := by
  rw [trendsOfBuckets, buildBuckets_eq, List.map_map]
  rfl

theorem bucket_scores_spec (keyF : JSDate → String) (logs : List ObservationLog)
    (p c : String) (hc : bucketCatScores logs keyF p c ≠ []) :
    findVal (scoresAvgMap ((bucketEntries logs keyF p).foldl addScore [])) c
      = some ((bucketCatScores logs keyF p c).sum
          / ((bucketCatScores logs keyF p c).length : ℚ)) := by
  rw [foldl_addScore_eq, scoresAvgMap, List.map_map]
  have hfil : (bucketEntries logs keyF p).filter (fun cs => cs.category = c) ≠ [] := by
    intro hcon
    rw [bucketCatScores, hcon] at hc
    exact hc rfl
  have hcmem : c ∈ occKeys ((bucketEntries logs keyF p).map (fun cs => cs.category)) := by
    rw [mem_occKeys]
    cases hcase : (bucketEntries logs keyF p).filter (fun cs => cs.category = c) with
    | nil => exact absurd hcase hfil
    | cons cs rest =>
      have hmem : cs ∈ (bucketEntries logs keyF p).filter (fun cs => cs.category = c) := by
        rw [hcase]; exact List.mem_cons_self cs rest
      have h1 := List.mem_filter.mp hmem
      have h2 : cs.category = c := by simpa using h1.2
      exact h2 ▸ List.mem_map_of_mem (fun cs => cs.category) h1.1
  have hcomp : findVal
      ((occKeys ((bucketEntries logs keyF p).map fun cs => cs.category)).map
        ((fun q : String × List ℚ =>
            (q.1, if 0 < q.2.length then q.2.sum / (q.2.length : ℚ) else 0)) ∘
          fun c => (c, ((bucketEntries logs keyF p).filter
            (fun cs => cs.category = c)).map fun cs => cs.score))) c
      = findVal
        ((occKeys ((bucketEntries logs keyF p).map fun cs => cs.category)).map
          (fun c => (c, if 0 < (bucketCatScores logs keyF p c).length
            then (bucketCatScores logs keyF p c).sum
              / ((bucketCatScores logs keyF p c).length : ℚ) else 0))) c := rfl
  rw [hcomp, findVal_mapKeys, if_pos hcmem, if_pos (List.length_pos.mpr hc)]

theorem bucket_total_spec (keyF : JSDate → String) (logs : List ObservationLog)
    (p : String) :
    totalObsOf ((bucketEntries logs keyF p).foldl addScore [])
      = (bucketEntries logs keyF p).length := by
  rw [foldl_addScore_eq, totalObsOf, List.map_map]
  have hcomp : ((occKeys ((bucketEntries logs keyF p).map fun cs => cs.category)).map
      ((fun q : String × List ℚ => q.2.length) ∘ fun c =>
        (c, ((bucketEntries logs keyF p).filter (fun cs => cs.category = c)).map
          fun cs => cs.score)))
      = ((occKeys ((bucketEntries logs keyF p).map fun cs => cs.category)).map
        (fun c => ((bucketEntries logs keyF p).filter
          (fun cs => cs.category = c)).length)) := by
    refine List.map_congr_left ?_
    intro c _
    simp [Function.comp]
  rw [hcomp]
  exact sum_partition (fun cs => cs.category) (bucketEntries logs keyF p)

/-- Claim C5: for every bucket entry emitted by `calculateTrends`, `scores[c]`
for each category `c` with at least one contributing score entry equals the
unweighted arithmetic mean of all score entries for `c` in that bucket (each
record contributes to both its week bucket and its month bucket, through
`bucketEntries` over the respective key function), and `totalObservations`
equals the total number of category-score entries contributing to that bucket
summed across all categories — so a record carrying several category scores
counts once per score entry, not once per record. -/
theorem claim_c5_trend_bucket_means (logs : List ObservationLog)
    (studentId? : Option String) :
    ∀ t ∈ calculateTrends logs studentId?,
      ∃ keyF, (keyF = getWeekKey ∨ keyF = getMonthKey) ∧
        (∀ c : String,
          bucketCatScores (filteredLogs logs studentId?) keyF t.period c ≠ [] →
            findVal t.scores c
              = some ((bucketCatScores (filteredLogs logs studentId?) keyF t.period c).sum
                  / ((bucketCatScores (filteredLogs logs studentId?) keyF t.period
                      c).length : ℚ))) ∧
        t.totalObservations
          = (bucketEntries (filteredLogs logs studentId?) keyF t.period).length := by
  intro t ht
  rw [calculateTrends, mem_sortBy, List.mem_append] at ht
  rcases ht with h | h
  · refine ⟨getWeekKey, Or.inl rfl, ?_⟩
    rw [trendsOfBuckets_eq] at h
    obtain ⟨p, hp, rfl⟩ := List.mem_map.mp h
    exact ⟨fun c hc => bucket_scores_spec getWeekKey (filteredLogs logs studentId?) p c hc,
      bucket_total_spec getWeekKey (filteredLogs logs studentId?) p⟩
  · refine ⟨getMonthKey, Or.inr rfl, ?_⟩
    rw [trendsOfBuckets_eq] at h
    obtain ⟨p, hp, rfl⟩ := List.mem_map.mp h
    exact ⟨fun c hc => bucket_scores_spec getMonthKey (filteredLogs logs studentId?) p c hc,
      bucket_total_spec getMonthKey (filteredLogs logs studentId?) p⟩

/-- Claim C10: a record whose `categories` field is absent or empty still
creates its week bucket and its month bucket (lines 54-59 run before the
category loop): the output of `calculateTrends` contains a `TrendData` entry
for each of the record's two bucket keys, and if no category-score entry at all
contributed to such a bucket its `scores` map is empty and its
`totalObservations` is 0. -/
theorem claim_c10_empty_record_buckets (logs : List ObservationLog)
    (studentId? : Option String) :
    ∀ log ∈ filteredLogs logs studentId?, jsCats log = [] →
      ((∃ t ∈ calculateTrends logs studentId?,
          t.period = getWeekKey log.timestamp ∧
          (bucketEntries (filteredLogs logs studentId?) getWeekKey
              (getWeekKey log.timestamp) = [] →
            t.scores = [] ∧ t.totalObservations = 0)) ∧
       (∃ t ∈ calculateTrends logs studentId?,
          t.period = getMonthKey log.timestamp ∧
          (bucketEntries (filteredLogs logs studentId?) getMonthKey
              (getMonthKey log.timestamp) = [] →
            t.scores = [] ∧ t.totalObservations = 0))) := by
  intro log hlog _hcats
  constructor
  · refine ⟨{ period := getWeekKey log.timestamp,
              scores := scoresAvgMap
                ((bucketEntries (filteredLogs logs studentId?) getWeekKey
                  (getWeekKey log.timestamp)).foldl addScore []),
              totalObservations := totalObsOf
                ((bucketEntries (filteredLogs logs studentId?) getWeekKey
                  (getWeekKey log.timestamp)).foldl addScore []) }, ?_, rfl, ?_⟩
    · rw [calculateTrends, mem_sortBy, List.mem_append]
      left
      rw [trendsOfBuckets_eq]
      refine List.mem_map_of_mem _ ?_
      exact mem_occKeys.mpr (List.mem_map_of_mem _ hlog)
    · intro hempty
      rw [hempty]
      exact ⟨rfl, rfl⟩
  · refine ⟨{ period := getMonthKey log.timestamp,
              scores := scoresAvgMap
                ((bucketEntries (filteredLogs logs studentId?) getMonthKey
                  (getMonthKey log.timestamp)).foldl addScore []),
              totalObservations := totalObsOf
                ((bucketEntries (filteredLogs logs studentId?) getMonthKey
                  (getMonthKey log.timestamp)).foldl addScore []) }, ?_, rfl, ?_⟩
    · rw [calculateTrends, mem_sortBy, List.mem_append]
      right
      rw [trendsOfBuckets_eq]
      refine List.mem_map_of_mem _ ?_
      exact mem_occKeys.mpr (List.mem_map_of_mem _ hlog)
    · intro hempty
      rw [hempty]
      exact ⟨rfl, rfl⟩

/-! ## Witnesses for the trend claims -/

set_option maxHeartbeats 1000000 in
/-- Claim C5, witness: the single record of `w5Logs` carries two
`Cognitive Skills` scores 2 and 4 in week bucket `2024-W01`; the emitted weekly
entry averages them to 3 and counts 2 observations (entries, not records). -/
theorem claim_c5_witness :
    (⟨"2024-W01", [("Cognitive Skills", 3)], 2⟩ : TrendData) ∈ calculateTrends w5Logs none ∧
    (∃ keyF, (keyF = getWeekKey ∨ keyF = getMonthKey) ∧
      (∀ c : String,
        bucketCatScores (filteredLogs w5Logs none) keyF "2024-W01" c ≠ [] →
          findVal ([("Cognitive Skills", (3 : ℚ))]) c
            = some ((bucketCatScores (filteredLogs w5Logs none) keyF "2024-W01" c).sum
                / ((bucketCatScores (filteredLogs w5Logs none) keyF "2024-W01"
                    c).length : ℚ))) ∧
      2 = (bucketEntries (filteredLogs w5Logs none) keyF "2024-W01").length) := by
  have hmemW : (⟨"2024-W01", [("Cognitive Skills", 3)], 2⟩ : TrendData)
      ∈ trendsOfBuckets getWeekKey (filteredLogs w5Logs none) := by
    rw [trendsOfBuckets_eq]
    refine List.mem_map.mpr ⟨"2024-W01", ?_, ?_⟩
    · decide
    · norm_num +decide [bucketEntries, scoresAvgMap, totalObsOf, addScore, findVal,
        updateVal, filteredLogs, w5Logs, mkLog, mkCS, jsCats]
  have hmem : (⟨"2024-W01", [("Cognitive Skills", 3)], 2⟩ : TrendData)
      ∈ calculateTrends w5Logs none := by
    rw [calculateTrends, mem_sortBy, List.mem_append]
    exact Or.inl hmemW
  exact ⟨hmem, claim_c5_trend_bucket_means w5Logs none _ hmem⟩

/-- Claim C10, witness: the single record of `r10Logs` has no `categories`
field, yet its week bucket `2024-W01` and month bucket `2024-01` both appear in
the output, with empty scores and zero observations. -/
theorem claim_c10_witness :
    (⟨"", "r1", "Hal", ⟨2024, 0, 4⟩, "", [], none⟩ : ObservationLog)
        ∈ filteredLogs r10Logs none ∧
    jsCats (⟨"", "r1", "Hal", ⟨2024, 0, 4⟩, "", [], none⟩ : ObservationLog) = [] ∧
    ((∃ t ∈ calculateTrends r10Logs none,
        t.period = getWeekKey (⟨2024, 0, 4⟩ : JSDate) ∧
        (bucketEntries (filteredLogs r10Logs none) getWeekKey
            (getWeekKey (⟨2024, 0, 4⟩ : JSDate)) = [] →
          t.scores = [] ∧ t.totalObservations = 0)) ∧
     (∃ t ∈ calculateTrends r10Logs none,
        t.period = getMonthKey (⟨2024, 0, 4⟩ : JSDate) ∧
        (bucketEntries (filteredLogs r10Logs none) getMonthKey
            (getMonthKey (⟨2024, 0, 4⟩ : JSDate)) = [] →
          t.scores = [] ∧ t.totalObservations = 0))) := by
  refine ⟨by decide, by decide, ?_⟩
  exact claim_c10_empty_record_buckets r10Logs none
    (⟨"", "r1", "Hal", ⟨2024, 0, 4⟩, "", [], none⟩ : ObservationLog) (by decide) (by decide)

/-! ## Claim theorems: peer comparison (C4, C7) -/

theorem mem_peer_iff {logs : List ObservationLog} {s : PeerComparison} :
    s ∈ calculatePeerComparison logs ↔
      ∃ s0 ∈ peerBase logs,
        s = { s0 with
              percentile := CATEGORIES.map (fun c =>
                (c, percentileFor logs c s0.categoryAverages)),
              overallPercentile := overallOf (CATEGORIES.map (fun c =>
                (c, percentileFor logs c s0.categoryAverages))) } := by
  rw [calculatePeerComparison, mem_sortBy, withPercentiles, List.map_map]
  simp only [List.mem_map, Function.comp]
  constructor
  · rintro ⟨s0, hs0, rfl⟩
    exact ⟨s0, hs0, rfl⟩
  · rintro ⟨s0, hs0, rfl⟩
    exact ⟨s0, hs0, rfl⟩

/-- Claim C4: in `calculatePeerComparison`, every student with a positive
average in a canonical category gets, for that category, the percentile
`Math.round((indexOfFirstCohortScore>=avg + 1) / cohortSize * 100)` over the
ascending-sorted cohort list `cohortScores`; consequently two students with
identical category averages receive the same percentile (the first-matching
rank is shared, not interpolated), and when exactly one student has data for
the category that student's percentile is 100. -/
theorem claim_c4_percentile_formula (logs : List ObservationLog) :
    ∀ s ∈ calculatePeerComparison logs, ∀ c ∈ CATEGORIES, ∀ v : ℚ,
      findVal s.categoryAverages c = some v → 0 < v →
      (findVal s.percentile c
          = some (jsRound ((((jsFindIdxGe (cohortScores logs c) v) + 1 : ℤ) : ℚ)
              / ((cohortScores logs c).length : ℚ) * 100))) ∧
      (∀ s2 ∈ calculatePeerComparison logs,
        findVal s2.categoryAverages c = some v →
          findVal s2.percentile c = findVal s.percentile c) ∧
      ((cohortScores logs c).length = 1 → findVal s.percentile c = some 100) := by
  intro s hs c hc v hv hvpos
  obtain ⟨s0, hs0, rfl⟩ := mem_peer_iff.mp hs
  have hva : findVal s0.categoryAverages c = some v := hv
  have hres : findVal (CATEGORIES.map (fun c =>
      (c, percentileFor logs c s0.categoryAverages))) c
      = some (percentileFor logs c s0.categoryAverages) := by
    rw [findVal_mapKeys, if_pos hc]
  have hpf : percentileFor logs c s0.categoryAverages
      = jsRound ((((jsFindIdxGe (cohortScores logs c) v) + 1 : ℤ) : ℚ)
          / ((cohortScores logs c).length : ℚ) * 100) := by
    simp only [percentileFor, hva]
    rw [if_pos hvpos]
  have h1 : findVal (CATEGORIES.map (fun c =>
      (c, percentileFor logs c s0.categoryAverages))) c
      = some (jsRound ((((jsFindIdxGe (cohortScores logs c) v) + 1 : ℤ) : ℚ)
          / ((cohortScores logs c).length : ℚ) * 100)) :=
    hres.trans (congrArg some hpf)
  refine ⟨h1, ?_, ?_⟩
  · intro s2 hs2 hv2
    obtain ⟨t0, ht0, rfl⟩ := mem_peer_iff.mp hs2
    have hvt : findVal t0.categoryAverages c = some v := hv2
    have hres2 : findVal (CATEGORIES.map (fun c =>
        (c, percentileFor logs c t0.categoryAverages))) c
        = some (percentileFor logs c t0.categoryAverages) := by
      rw [findVal_mapKeys, if_pos hc]
    have hsame : percentileFor logs c t0.categoryAverages
        = percentileFor logs c s0.categoryAverages := by
      simp only [percentileFor, hvt, hva]
    exact (hres2.trans (congrArg some hsame)).trans hres.symm
  · intro hlen1
    have hvin : v ∈ cohortScores logs c := by
      rw [cohortScores, mem_sortBy, List.mem_filter]
      refine ⟨List.mem_filterMap.mpr ⟨s0, hs0, hva⟩, by simpa using hvpos⟩
    obtain ⟨w, hw⟩ := List.length_eq_one.mp hlen1
    have hvw : v = w := by
      rw [hw] at hvin
      simpa using hvin
    have hidx : jsFindIdxGe (cohortScores logs c) v = 0 := by
      rw [jsFindIdxGe, hw, ← hvw]
      simp
    rw [h1, hidx, hlen1]
    norm_num [jsRound]

theorem overallOf_eq (pct : List (String × ℤ)) :
    overallOf pct
      = (if ((pct.map (fun p => p.2)).filter (fun v => 0 < v)).length = 0 then 0
         else jsRound (((((pct.map (fun p => p.2)).filter (fun v => 0 < v)).sum : ℤ) : ℚ)
           / ((((pct.map (fun p => p.2)).filter
               (fun v => 0 < v)).length : ℕ) : ℚ))) := by
  simp only [overallOf]
  by_cases h : ((pct.map (fun p => p.2)).filter (fun v => 0 < v)).length = 0
  · rw [if_neg (by omega), if_pos h]
  · rw [if_pos (by omega), if_neg h]

/-- Claim C7: for every student in the output of `calculatePeerComparison`,
`overallPercentile` is the rounded unweighted mean of exactly the student's
positive category percentiles (0 when there is none), and a canonical category
for which the student has no data gets percentile 0 and is therefore excluded
from that mean rather than counted. -/
theorem claim_c7_overall_percentile (logs : List ObservationLog) :
    ∀ s ∈ calculatePeerComparison logs,
      (s.overallPercentile
        = (if ((s.percentile.map (fun p => p.2)).filter (fun v => 0 < v)).length = 0
           then 0
           else jsRound (((((s.percentile.map (fun p => p.2)).filter
               (fun v => 0 < v)).sum : ℤ) : ℚ)
             / ((((s.percentile.map (fun p => p.2)).filter
               (fun v => 0 < v)).length : ℕ) : ℚ)))) ∧
      (∀ c ∈ CATEGORIES, findVal s.categoryAverages c = none →
        findVal s.percentile c = some 0) := by
  intro s hs
  obtain ⟨s0, hs0, rfl⟩ := mem_peer_iff.mp hs
  constructor
  · exact overallOf_eq (CATEGORIES.map (fun c =>
      (c, percentileFor logs c s0.categoryAverages)))
  · intro c hc hnone
    have hres : findVal (CATEGORIES.map (fun c =>
        (c, percentileFor logs c s0.categoryAverages))) c
        = some (percentileFor logs c s0.categoryAverages) := by
      rw [findVal_mapKeys, if_pos hc]
    have hnone0 : findVal s0.categoryAverages c = none := hnone
    have hz : percentileFor logs c s0.categoryAverages = 0 := by
      simp only [percentileFor, hnone0]
    exact hres.trans (congrArg some hz)

/-! ## Witnesses for the peer-comparison claims -/

set_option maxHeartbeats 2000000 in
/-- Evaluation of `calculatePeerComparison` on the two-student tie fixture
`p4Logs`, shared by the peer-comparison witnesses. -/
theorem peerEvalP4 :
    calculatePeerComparison p4Logs
      = [{ studentId := "pa", studentName := "Eve",
           categoryAverages := [("Creativity", 4)],
           percentile := [("Cognitive Skills", 0), ("Social Skills", 0),
             ("Emotional Readiness", 0), ("Communication", 0), ("Creativity", 50)],
           overallPercentile := 50 },
         { studentId := "pb", studentName := "Fay",
           categoryAverages := [("Creativity", 4)],
           percentile := [("Cognitive Skills", 0), ("Social Skills", 0),
             ("Emotional Readiness", 0), ("Communication", 0), ("Creativity", 50)],
           overallPercentile := 50 }] := by
  norm_num +decide [calculatePeerComparison, withPercentiles, peerBase,
    buildStudentScores, groupFold, groupStep, ensureKey, updateVal, findVal,
    scoresAvgMap, addScore, CATEGORIES, percentileFor, cohortScores, jsFindIdxGe,
    jsRound, overallOf, sortBy, insertLe, jsCats, p4Logs, mkLog, mkCS,
    List.findIdx?_cons, Int.floor_eq_iff]

/-- Claim C4, witness: in the two-student cohort `p4Logs` both students average
4 in `Creativity`; the percentile formula gives rank 0, so both receive
`round((0 + 1) / 2 * 100) = 50` — the same, non-interpolated percentile. -/
theorem claim_c4_witness :
    ∃ s ∈ calculatePeerComparison p4Logs,
      findVal s.categoryAverages "Creativity" = some 4 ∧
      findVal s.percentile "Creativity"
        = some (jsRound ((((jsFindIdxGe (cohortScores p4Logs "Creativity") 4) + 1 : ℤ) : ℚ)
            / ((cohortScores p4Logs "Creativity").length : ℚ) * 100)) ∧
      (∀ s2 ∈ calculatePeerComparison p4Logs,
        findVal s2.categoryAverages "Creativity" = some 4 →
          findVal s2.percentile "Creativity" = findVal s.percentile "Creativity") ∧
      findVal s.percentile "Creativity" = some 50 := by
  have hmem : ({ studentId := "pa", studentName := "Eve",
                 categoryAverages := [("Creativity", 4)],
                 percentile := [("Cognitive Skills", 0), ("Social Skills", 0),
                   ("Emotional Readiness", 0), ("Communication", 0),
                   ("Creativity", 50)],
                 overallPercentile := 50 } : PeerComparison)
      ∈ calculatePeerComparison p4Logs := by
    rw [peerEvalP4]
    exact List.mem_cons_self _ _
  have havg : findVal [("Creativity", (4 : ℚ))] "Creativity" = some 4 := by
    norm_num [findVal]
  have h := claim_c4_percentile_formula p4Logs _ hmem "Creativity" (by decide) 4 havg
    (by norm_num)
  refine ⟨_, hmem, havg, h.1, h.2.1, ?_⟩
  rw [h.1]
  norm_num +decide [cohortScores, peerBase, buildStudentScores, groupFold, groupStep,
    ensureKey, updateVal, findVal, scoresAvgMap, addScore, jsCats, p4Logs, mkLog,
    mkCS, sortBy, insertLe, jsFindIdxGe, jsRound, List.findIdx?_cons, Int.floor_eq_iff]

/-- Claim C7, witness: the students of `p4Logs` have one positive percentile
(50, for `Creativity`); the four data-less canonical categories carry
percentile 0 and are excluded, so the overall percentile is `round(50/1) =
50`. -/
theorem claim_c7_witness :
    ∃ s ∈ calculatePeerComparison p4Logs,
      (s.overallPercentile
        = (if ((s.percentile.map (fun p => p.2)).filter (fun v => 0 < v)).length = 0
           then 0
           else jsRound (((((s.percentile.map (fun p => p.2)).filter
               (fun v => 0 < v)).sum : ℤ) : ℚ)
             / ((((s.percentile.map (fun p => p.2)).filter
               (fun v => 0 < v)).length : ℕ) : ℚ)))) ∧
      (∀ c ∈ CATEGORIES, findVal s.categoryAverages c = none →
        findVal s.percentile c = some 0) ∧
      s.overallPercentile = 50 := by
  have hmem : ({ studentId := "pa", studentName := "Eve",
                 categoryAverages := [("Creativity", 4)],
                 percentile := [("Cognitive Skills", 0), ("Social Skills", 0),
                   ("Emotional Readiness", 0), ("Communication", 0),
                   ("Creativity", 50)],
                 overallPercentile := 50 } : PeerComparison)
      ∈ calculatePeerComparison p4Logs := by
    rw [peerEvalP4]
    exact List.mem_cons_self _ _
  have h := claim_c7_overall_percentile p4Logs _ hmem
  exact ⟨_, hmem, h.1, h.2, rfl⟩

/-! ## Claim theorem: recommendations (C6) -/

/-- Claim C6: `generateRecommendations` concatenates, per alert in order, one
`Recommendation` for every catalog rule of the alert's category whose inclusive
`[minScore, maxScore]` band contains the alert's score — so an alert yields
zero, one or several recommendations (one per matching band), each carrying the
alert's severity as its priority; no deduplication happens across alerts or
rules, and an alert whose category has no catalog entry yields none. -/
theorem claim_c6_recommendation_rule (logs : List ObservationLog)
    (alerts : List InterventionAlert) :
    generateRecommendations logs alerts = alerts.flatMap recsForAlert ∧
    ∀ alert ∈ alerts,
      (recsForAlert alert
        = (((findVal recommendationMap alert.category).getD []).filter
            (fun r => r.minScore ≤ alert.score ∧ alert.score ≤ r.maxScore)).map
            (recOfRule alert)) ∧
      (∀ rec ∈ recsForAlert alert, rec.priority = alert.severity) ∧
      (findVal recommendationMap alert.category = none → recsForAlert alert = []) := by
  have hper : ∀ alert : InterventionAlert,
      recsForAlert alert
        = (((findVal recommendationMap alert.category).getD []).filter
            (fun r => r.minScore ≤ alert.score ∧ alert.score ≤ r.maxScore)).map
            (recOfRule alert) := by
    intro alert
    rw [recsForAlert, foldl_push_band _
      (fun r => alert.score ≤ r.maxScore ∧ r.minScore ≤ alert.score) (recOfRule alert) []]
    rw [List.nil_append]
    congr 1
    refine List.filter_congr ?_
    intro r _
    rw [decide_eq_decide]
    exact and_comm
  refine ⟨?_, ?_⟩
  · rw [generateRecommendations, foldl_append_sections, List.nil_append]
  · intro alert _
    refine ⟨hper alert, ?_, ?_⟩
    · intro rec hrec
      rw [hper alert] at hrec
      obtain ⟨r, _, rfl⟩ := List.mem_map.mp hrec
      rfl
    · intro hnone
      rw [recsForAlert, hnone]
      rfl

/-- Claim C6, witness: the alert `w6Alert` scores 2 in `Cognitive Skills`,
inside both catalog bands `[1, 2]` and `[2, 3]`, so it fans out to exactly two
recommendations, both of priority `low`; `generateRecommendations` on the
singleton alert list emits exactly those two. -/
theorem claim_c6_witness :
    generateRecommendations [] [w6Alert] = [w6Alert].flatMap recsForAlert ∧
    (recsForAlert w6Alert).length = 2 ∧
    (∀ rec ∈ recsForAlert w6Alert, rec.priority = Severity.low) := by
  have h := claim_c6_recommendation_rule [] [w6Alert]
  have hmem : w6Alert ∈ [w6Alert] := List.mem_cons_self _ _
  have h2 := h.2 w6Alert hmem
  refine ⟨h.1, ?_, fun rec hrec => h2.2.1 rec hrec⟩
  rw [h2.1]
  norm_num +decide [recommendationMap, findVal, w6Alert]

/-! ## Claim theorem: bucket keys (C8) -/

theorem ceil_div_seven (n : ℕ) : ⌈(n : ℚ) / 7⌉ = ((n + 6) / 7 : ℕ) := by
  have hnat1 : ((n + 6) / 7) * 7 < n + 7 := by omega
  have hnat2 : n ≤ ((n + 6) / 7) * 7 := by omega
  have hc1 : (((n + 6) / 7 : ℕ) : ℚ) * 7 < (n : ℚ) + 7 := by exact_mod_cast hnat1
  have hc2 : (n : ℚ) ≤ (((n + 6) / 7 : ℕ) : ℚ) * 7 := by exact_mod_cast hnat2
  rw [Int.ceil_eq_iff]
  constructor
  · have hq : (((n + 6) / 7 : ℕ) : ℚ) - 1 < (n : ℚ) / 7 := by linarith
    exact_mod_cast hq
  · have hq : (n : ℚ) / 7 ≤ (((n + 6) / 7 : ℕ) : ℚ) := by linarith
    exact_mod_cast hq

theorem jsMonthStartDay_le (year : ℤ) (month : ℕ) : jsMonthStartDay year month ≤ 6 := by
  rw [jsMonthStartDay]
  have h1 : 0 ≤ (daysFromCivil (jsMakeFullYear year) ((month : ℤ) + 1) 1 + 4) % 7 :=
    Int.emod_nonneg _ (by norm_num)
  have h2 : (daysFromCivil (jsMakeFullYear year) ((month : ℤ) + 1) 1 + 4) % 7 < 7 :=
    Int.emod_lt_of_pos _ (by norm_num)
  omega

theorem daysInMonth_le (y : ℤ) (m : ℕ) (h : m < 12) : daysInMonth y m ≤ 31 := by
  interval_cases m <;> simp only [daysInMonth, List.getD] <;> norm_num
  split_ifs <;> norm_num

theorem weekNumberOf_bounds (d : JSDate) (h : d.Valid) :
    1 ≤ weekNumberOf d ∧ weekNumberOf d ≤ 6 := by
  obtain ⟨hm, hd1, hd2⟩ := h
  have hdm := daysInMonth_le d.year d.month hm
  have hms := jsMonthStartDay_le d.year d.month
  rw [weekNumberOf]
  omega

/-- Claim C8 (amended): for every valid instant, the week-bucket key is
`toString year ++ "-W" ++ NN` where the week number is
`ceil((dayOfMonth + weekday of the first day of the month of
new Date(year, month, 1)) / 7)` — for a `getFullYear()` between 0 and 99 that
constructor applies ECMA-262 `MakeFullYear` and uses the month start of year
1900 + year, otherwise the instant's own month start (see
`claim_c8_counterexample` for the 0..99 divergence from the claim as stated) —
a week-of-month counter resetting at each month boundary, not an ISO week; `NN`
is that number left-padded to exactly two digits; the month-bucket key is
`toString year ++ "-" ++ MM` with the two-digit 1-based calendar month. Both
key functions are total on valid dates. -/
theorem claim_c8_bucket_keys (d : JSDate) (h : d.Valid) :
    getWeekKey d = toString d.year ++ "-W" ++ padStart2 (toString (weekNumberOf d)) ∧
    (weekNumberOf d : ℤ)
      = ⌈((d.day + jsMonthStartDay d.year d.month : ℕ) : ℚ) / 7⌉ ∧
    (padStart2 (toString (weekNumberOf d))).length = 2 ∧
    getMonthKey d = toString d.year ++ "-" ++ padStart2 (toString (d.month + 1)) ∧
    (padStart2 (toString (d.month + 1))).length = 2 := by
  refine ⟨rfl, ?_, ?_, rfl, ?_⟩
  · exact (ceil_div_seven (d.day + jsMonthStartDay d.year d.month)).symm
  · obtain ⟨hw1, hw2⟩ := weekNumberOf_bounds d h
    generalize hg : weekNumberOf d = w at hw1 hw2 ⊢
    interval_cases w <;> decide
  · have hm2 : d.month < 12 := h.1
    generalize hg : d.month = m at hm2 ⊢
    interval_cases m <;> decide

/-- Claim C8, counterexample to the claim as stated: the valid instant
0050-01-02 has `getFullYear() = 50`, so `new Date(50, 0, 1)` denotes 1950-01-01
(a Sunday, weekday 0) and the program emits week key `"50-W01"`; the first day
of that instant's own month, 0050-01-01, is a Saturday (weekday 6), so the
claim's formula gives week number `ceil((2 + 6) / 7) = 2`, i.e. the key
`"50-W02"`, which the program does not produce. -/
theorem claim_c8_counterexample :
    (⟨50, 0, 2⟩ : JSDate).Valid ∧
    instantMonthStartDay 50 0 = 6 ∧
    (⌈(((⟨50, 0, 2⟩ : JSDate).day + instantMonthStartDay 50 0 : ℕ) : ℚ) / 7⌉ : ℤ) = 2 ∧
    getWeekKey ⟨50, 0, 2⟩ = "50-W01" ∧
    getWeekKey ⟨50, 0, 2⟩ ≠ toString (50 : ℤ) ++ "-W" ++ padStart2 (toString (2 : ℕ)) := by
  refine ⟨by decide, by decide, ?_, by decide, by decide⟩
  rw [ceil_div_seven]
  decide

/-- Claim C8, witness: 2024-01-15 (January 2024 starts on a Monday, weekday
index 1; the year 2024 is outside the `MakeFullYear` remap range) gets week
number `ceil((15 + 1) / 7) = 3`, week key `"2024-W03"` and month key
`"2024-01"`. -/
theorem claim_c8_witness :
    d8.Valid ∧ getWeekKey d8 = "2024-W03" ∧ getMonthKey d8 = "2024-01" ∧
    (weekNumberOf d8 : ℤ)
      = ⌈((d8.day + jsMonthStartDay d8.year d8.month : ℕ) : ℚ) / 7⌉ ∧
    (padStart2 (toString (weekNumberOf d8))).length = 2 := by
  have h := claim_c8_bucket_keys d8 (by decide)
  exact ⟨by decide, by decide, by decide, h.2.1, h.2.2.1⟩
